import Mathlib

/-!
Shallow embedding of the `LordSaumya/filesystem` storage engine
(`src/fs_structs.rs`, `src/fs_ops.rs`) and proofs about its operations.

Modelling conventions:
* Machine integers (`usize`, `u32`, `u8`) are modelled as `Nat`.  All sizes
  involved are bounded far below `2^64`, so no wrap-around can occur; the one
  place where the full `usize` range matters is the end-of-chain sentinel
  `usize::MAX`, modelled as the explicit constant `SENTINEL = 2^64 - 1`.
* A data block (4096 raw bytes on disk) is modelled as its 4088 payload bytes
  (`List Nat`) plus the decoded trailing next-block pointer (`Nat`), exactly
  the split the code itself performs via `USABLE_BLOCK_SIZE`.  Little-endian
  `usize` serialization of the pointer round-trips for every value, so the
  decoded view is faithful.
* File aliases enter the engine as Rust `&str` values and are stored as their
  UTF-8 bytes; `get_alias_str` re-decodes them.  UTF-8 encoding is injective
  and decoding the bytes of a valid string always succeeds, so comparing
  stored alias bytes with a query alias's bytes is equivalent to the code's
  comparison of decoded strings.  Aliases are therefore modelled as byte
  lists (`List Nat`).
* The backing file's data-block region is carried in the state (`data` field)
  so that reads/writes of blocks are explicit; the header, filenode table and
  bitmap writes (`save_filenodes`, `write_bitmap_to_disk`) persist exactly
  the in-memory values, so the in-memory state is the canonical one.
* Local-file I/O (the source of an upload / destination of a download) is an
  external collaborator: upload takes the source's bytes as a list, download
  returns the emitted bytes as a list.
* Each distinct `return Err(...)` site of the Rust code is modelled by a
  distinct constructor of an error inductive, carrying the values interpolated
  into the message.
-/

/-- Constants from `fs_structs.rs`. -/
def KILOBYTE : Nat := 1024

/-- One megabyte. -/
def MEGABYTE : Nat := 1024 * KILOBYTE

/-- Total size of the backing file (1 MiB). -/
def FILESYSTEM_SIZE : Nat := MEGABYTE

/-- Size of one data block (4 KiB). -/
def BLOCK_SIZE : Nat := 4 * KILOBYTE

/-- `std::mem::size_of::<usize>()` on the 64-bit targets the code assumes
(the spec's example payload size 4088 = 4096 - 8 confirms this). -/
def NEXT_BLOCK_POINTER_SIZE : Nat := 8

/-- Usable payload bytes per block. -/
def USABLE_BLOCK_SIZE : Nat := BLOCK_SIZE - NEXT_BLOCK_POINTER_SIZE

/-- Maximum alias length. -/
def MAX_FILENAME_LENGTH : Nat := 255

/-- The end-of-chain sentinel `usize::MAX`. -/
def SENTINEL : Nat := 2 ^ 64 - 1

/-- Number of filenodes (`num_filenodes` local in `init_filesystem`). -/
def NUM_FILENODES : Nat := 100

/-- `std::mem::size_of::<Header>()`: one `u32` plus seven `usize` fields,
padded to 8-byte alignment: 4 + 56 -> 64. -/
def HEADER_STRUCT_SIZE : Nat := 64

/-- `std::mem::size_of::<FileNode>()`: 255 alias bytes + 1 (`alias_len`)
+ 8 (`size`) + 16 (`Option<usize>`) + 1 (`bool`) = 281, padded to 288. -/
def FILENODE_STRUCT_SIZE : Nat := 288

/-- On-disk span reserved for the serialized filenode table:
a `u64` length prefix plus `num_filenodes` records. -/
def SERIALIZED_FILENODE_TABLE_BYTES : Nat :=
  8 + NUM_FILENODES * FILENODE_STRUCT_SIZE

/-- Tentative data-block offset used to size the bitmap. -/
def TENTATIVE_DATA_BLOCKS_OFFSET : Nat :=
  HEADER_STRUCT_SIZE + SERIALIZED_FILENODE_TABLE_BYTES

/-- Tentative number of data blocks used to size the bitmap. -/
def TENTATIVE_NUM_DATA_BLOCKS : Nat :=
  (FILESYSTEM_SIZE - TENTATIVE_DATA_BLOCKS_OFFSET) / BLOCK_SIZE

/-- Bitmap byte span: `ceil(num_data_blocks / 8)`. -/
def BITMAP_SIZE_BYTES : Nat := (TENTATIVE_NUM_DATA_BLOCKS + 7) / 8

/-- Byte offset of the filenode table. -/
def FILENODE_TABLE_OFFSET : Nat := HEADER_STRUCT_SIZE

/-- Byte offset of the free-block bitmap. -/
def FREE_BLOCK_BITMAP_OFFSET : Nat :=
  FILENODE_TABLE_OFFSET + SERIALIZED_FILENODE_TABLE_BYTES

/-- Byte offset of the data-block region. -/
def DATA_BLOCKS_OFFSET : Nat := FREE_BLOCK_BITMAP_OFFSET + BITMAP_SIZE_BYTES

/-- Number of data blocks derived by `init_filesystem`. -/
def NUM_DATA_BLOCKS : Nat :=
  if FILESYSTEM_SIZE > DATA_BLOCKS_OFFSET then
    (FILESYSTEM_SIZE - DATA_BLOCKS_OFFSET) / BLOCK_SIZE
  else 0

/-- The persisted geometry descriptor (`Header` in `fs_structs.rs`). -/
structure Header where
  version : Nat
  total_size : Nat
  block_size : Nat
  filenode_table_offset : Nat
  filenode_table_size : Nat
  free_block_bitmap_offset : Nat
  data_blocks_offset : Nat
  num_data_blocks : Nat
deriving DecidableEq

/-- A file descriptor (`FileNode` in `fs_structs.rs`).  `alias_buf` is the full
255-byte buffer (the source's `alias` field; renamed because `alias` is a
reserved Lean command name). -/
structure FileNode where
  alias_buf : List Nat
  alias_len : Nat
  size : Nat
  first_block_index : Option Nat
  is_used : Bool
deriving DecidableEq

/-- `FileNode::new()`: an all-zero, unused descriptor. -/
def FileNode.new : FileNode :=
  { alias_buf := List.replicate MAX_FILENAME_LENGTH 0
    alias_len := 0
    size := 0
    first_block_index := none
    is_used := false }

/-- The byte content of `get_alias_str`: the first `alias_len` bytes of the
alias buffer (UTF-8 decoding abstracted away, see the module comment). -/
def FileNode.alias_bytes (n : FileNode) : List Nat :=
  n.alias_buf.take n.alias_len

/-- One 4096-byte data block, split as the code splits it: 4088 payload bytes
and the decoded trailing next-block pointer. -/
structure Block where
  payload : List Nat
  next : Nat
deriving DecidableEq

/-- A block whose 4096 raw bytes are all zero (note the decoded pointer of an
all-zero trailing field is 0, not the sentinel). -/
def zeroBlock : Block :=
  { payload := List.replicate USABLE_BLOCK_SIZE 0, next := 0 }

/-- Decoding of a trailing pointer field into `Option` form, as done in
`download_file` and `delete_file`: `usize::MAX` means end of chain. -/
def nextOf (b : Block) : Option Nat :=
  if b.next = SENTINEL then none else some b.next

/-- In-memory manager state (`FileSystemManager` in `fs_ops.rs`) together
with the backing file's data-block region (`data`).  In the bitmap,
`true` means FREE, `false` means USED. -/
structure FileSystemManager where
  header : Header
  filenodes : List FileNode
  free_block_bitmap : List Bool
  data : List Block
deriving DecidableEq

/-- The header written by `init_filesystem`. -/
def init_header : Header :=
  { version := 1
    total_size := FILESYSTEM_SIZE
    block_size := BLOCK_SIZE
    filenode_table_offset := FILENODE_TABLE_OFFSET
    filenode_table_size := NUM_FILENODES
    free_block_bitmap_offset := FREE_BLOCK_BITMAP_OFFSET
    data_blocks_offset := DATA_BLOCKS_OFFSET
    num_data_blocks := NUM_DATA_BLOCKS }

/-- The manager state produced by `init_filesystem` when run over a backing
file whose data-block region currently holds `existingData` (init rewrites
header, table and bitmap but never touches data blocks). -/
def init_manager (existingData : List Block) : FileSystemManager :=
  { header := init_header
    filenodes := List.replicate NUM_FILENODES FileNode.new
    free_block_bitmap := List.replicate NUM_DATA_BLOCKS true
    data := existingData }

/-- Data region of a freshly created backing file: `set_len` zero-fills. -/
def freshData : List Block := List.replicate NUM_DATA_BLOCKS zeroBlock

/-- The manager produced by `init_filesystem` on a fresh backing file. -/
def init_fs : FileSystemManager := init_manager freshData

/-- `FileSystemManager::init_filesystem`, as a function of the current
data-region contents (zeroed for a newly created file).  The only non-I/O
failure is the zero-data-blocks configuration check. -/
def FileSystemManager.init_filesystem (existingData : List Block) :
    Except String FileSystemManager :=
  if NUM_DATA_BLOCKS = 0 ∧ FILESYSTEM_SIZE > BLOCK_SIZE then
    .error "Calculated zero data blocks."
  else
    .ok (init_manager existingData)

/-- The predicate `upload_file`/`download_file`/`delete_file` use to match a
filenode against a query alias (used flag plus decoded-alias comparison). -/
def aliasMatch (n : FileNode) (aliasq : List Nat) : Bool :=
  n.is_used && decide (n.alias_buf.take n.alias_len = aliasq)

/-- `FileSystemManager::find_free_filenode_index`. -/
def FileSystemManager.find_free_filenode_index (st : FileSystemManager) :
    Option Nat :=
  st.filenodes.findIdx? (fun node => !node.is_used)

/-- The scanning loop of `FileSystemManager::find_free_blocks`: walk the
bitmap, collect free indices, return as soon as the target count is reached,
return `none` if the scan ends first. -/
def find_free_blocks_loop (bm : List Bool) (index : Nat) (acc : List Nat)
    (num_blocks_needed : Nat) : Option (List Nat) :=
  match bm with
  | [] => none
  | is_free :: rest =>
    if is_free then
      let acc2 := acc ++ [index]
      if acc2.length = num_blocks_needed then some acc2
      else find_free_blocks_loop rest (index + 1) acc2 num_blocks_needed
    else find_free_blocks_loop rest (index + 1) acc num_blocks_needed

/-- `FileSystemManager::find_free_blocks`. -/
def FileSystemManager.find_free_blocks (st : FileSystemManager)
    (num_blocks_needed : Nat) : Option (List Nat) :=
  find_free_blocks_loop st.free_block_bitmap 0 [] num_blocks_needed

/-- The alias-uniqueness scan of `upload_file` (a for-loop with early
return over the used filenodes). -/
def aliasInUse (st : FileSystemManager) (aliasq : List Nat) : Bool :=
  st.filenodes.any (fun node => aliasMatch node aliasq)

/-- Free-block count as computed in `upload_file`
(`free_block_bitmap.iter().filter(|&free| *free).count()`). -/
def FileSystemManager.free_blocks_count (st : FileSystemManager) : Nat :=
  st.free_block_bitmap.count true

/-- One constructor per distinct `return Err(...)` site of `upload_file`
(the local-file existence/readability errors are external I/O and are
represented by the source bytes being given). -/
inductive UploadError where
  | aliasLength
  | aliasExists
  | emptyFile
  | notEnoughSpace (fileSize avail : Nat)
  | noFreeFilenode
  | zeroBlocksInternal
  | notEnoughBlocks (needed avail : Nat)
  | couldNotFindBlocks (needed : Nat)
  | writeRemaining (remaining : Nat)
deriving DecidableEq

/-- The block-writing loop of `upload_file`: for each selected block index in
order, write `min(remaining, USABLE_BLOCK_SIZE)` payload bytes (zero-padded
to a full block), link the trailing pointer to the next selected index (or
the sentinel for the last), mark the block used in the bitmap, and consume
the written bytes.  Returns the updated data region and bitmap and the final
`bytes_remaining_to_write`. -/
def uploadLoop (data : List Block) (bm : List Bool) (indices : List Nat)
    (bytes : List Nat) (remaining : Nat) : List Block × List Bool × Nat :=
  match indices with
  | [] => (data, bm, remaining)
  | i :: rest =>
    let k := min remaining USABLE_BLOCK_SIZE
    let nxt := match rest with
      | [] => SENTINEL
      | j :: _ => j
    uploadLoop
      (data.set i { payload := bytes.take k ++ List.replicate (USABLE_BLOCK_SIZE - k) 0
                    next := nxt })
      (bm.set i false) rest (bytes.drop k) (remaining - k)

/-- `FileSystemManager::upload_file`, with the source file's bytes given as
`content` (its measured size is `content.length`).  The checks appear in
exactly the code's order. -/
def FileSystemManager.upload_file (st : FileSystemManager)
    (content : List Nat) (aliasq : List Nat) :
    Except UploadError FileSystemManager :=
  if aliasq.length = 0 ∨ aliasq.length > MAX_FILENAME_LENGTH then
    .error .aliasLength
  else if aliasInUse st aliasq then
    .error .aliasExists
  else
    let file_size := content.length
    if file_size = 0 then
      .error .emptyFile
    else
      let free_blocks_count := st.free_blocks_count
      if file_size > free_blocks_count * USABLE_BLOCK_SIZE then
        .error (.notEnoughSpace file_size (free_blocks_count * USABLE_BLOCK_SIZE))
      else
        match st.find_free_filenode_index with
        | none => .error .noFreeFilenode
        | some filenode_index =>
          let num_blocks_needed :=
            (file_size + USABLE_BLOCK_SIZE - 1) / USABLE_BLOCK_SIZE
          if num_blocks_needed = 0 ∧ file_size > 0 then
            .error .zeroBlocksInternal
          else if num_blocks_needed > free_blocks_count then
            .error (.notEnoughBlocks num_blocks_needed free_blocks_count)
          else
            match st.find_free_blocks num_blocks_needed with
            | none => .error (.couldNotFindBlocks num_blocks_needed)
            | some block_indices =>
              let res := uploadLoop st.data st.free_block_bitmap block_indices
                content file_size
              if res.2.2 ≠ 0 then
                .error (.writeRemaining res.2.2)
              else
                let node : FileNode :=
                  { alias_buf := aliasq ++ (st.filenodes.getD filenode_index FileNode.new).alias_buf.drop aliasq.length
                    alias_len := aliasq.length
                    size := file_size
                    first_block_index := some (block_indices.headD 0)
                    is_used := true }
                .ok { st with
                  data := res.1
                  free_block_bitmap := res.2.1
                  filenodes := st.filenodes.set filenode_index node }

/-- One constructor per distinct non-I/O `return Err(...)` site of
`download_file`. -/
inductive DownloadError where
  | notFound
  | invalidBlockIndex (index : Nat)
  | incomplete (remaining : Nat)
deriving DecidableEq

/-- The chain-walking loop of `download_file`.  Terminates unconditionally
because `remaining` strictly decreases on every iteration that recurses. -/
def downloadLoop (nblocks : Nat) (data : List Block) (remaining : Nat)
    (cur : Option Nat) (acc : List Nat) : Except DownloadError (List Nat) :=
  match cur with
  | none => if remaining ≠ 0 then .error (.incomplete remaining) else .ok acc
  | some i =>
    if remaining = 0 then .ok acc
    else if nblocks ≤ i then .error (.invalidBlockIndex i)
    else
      let blk := data.getD i zeroBlock
      let k := min remaining USABLE_BLOCK_SIZE
      let acc2 := acc ++ blk.payload.take k
      if remaining - k = 0 then .ok acc2
      else downloadLoop nblocks data (remaining - k) (nextOf blk) acc2
termination_by remaining
decreasing_by
  have hU : 0 < USABLE_BLOCK_SIZE := by decide
  omega

/-- `FileSystemManager::download_file`, returning the bytes written to the
destination sink. -/
def FileSystemManager.download_file (st : FileSystemManager)
    (aliasq : List Nat) : Except DownloadError (List Nat) :=
  match st.filenodes.find? (fun node => aliasMatch node aliasq) with
  | none => .error .notFound
  | some filenode =>
    downloadLoop st.header.num_data_blocks st.data filenode.size
      filenode.first_block_index []

/-- The accumulation loop of `list_files`: one entry (alias bytes, size) per
used filenode, in table order. -/
def list_files_loop : List FileNode → List (List Nat × Nat)
  | [] => []
  | node :: rest =>
    if node.is_used then
      (node.alias_bytes, node.size) :: list_files_loop rest
    else list_files_loop rest

/-- `FileSystemManager::list_files` (the string formatting of each entry is
abstracted to the pair it interpolates). -/
def FileSystemManager.list_files (st : FileSystemManager) :
    List (List Nat × Nat) :=
  list_files_loop st.filenodes

/-- The only non-I/O `return Err(...)` site of `delete_file`. -/
inductive DeleteError where
  | notFound
deriving DecidableEq

/-- The chain-walking loop of `delete_file`: collect visited block indices;
an out-of-range index stops the walk early (without error).  The Rust loop
has no termination measure (a cyclic chain would loop forever), so the model
takes explicit fuel; `none` means the walk did not finish within the fuel. -/
def delete_walk (nblocks : Nat) (data : List Block) :
    Nat → Option Nat → List Nat → Option (List Nat)
  | _, none, acc => some acc
  | fuel, some i, acc =>
    if nblocks ≤ i then some acc
    else
      match fuel with
      | 0 => none
      | fuel + 1 =>
        delete_walk nblocks data fuel (nextOf (data.getD i zeroBlock)) (acc ++ [i])

/-- `FileSystemManager::delete_file` with explicit walk fuel; the outer
`none` means the chain walk of the Rust code would not terminate within
`fuel` steps. -/
def FileSystemManager.delete_file (fuel : Nat) (st : FileSystemManager)
    (aliasq : List Nat) :
    Option (Except DeleteError FileSystemManager) :=
  match st.filenodes.findIdx? (fun node => aliasMatch node aliasq) with
  | none => some (.error .notFound)
  | some filenode_index =>
    match delete_walk st.header.num_data_blocks st.data fuel
      (st.filenodes.getD filenode_index FileNode.new).first_block_index [] with
    | none => none
    | some blocks_to_free =>
      let bm2 := blocks_to_free.foldl
        (fun bm b => if b < bm.length then bm.set b true else bm)
        st.free_block_bitmap
      let cleared : FileNode :=
        { alias_buf := List.replicate MAX_FILENAME_LENGTH 0
          alias_len := 0
          size := 0
          first_block_index := none
          is_used := false }
      some (.ok { st with
        free_block_bitmap := bm2
        filenodes := st.filenodes.set filenode_index cleared })

/-- Parsed contents of an existing backing file as `get_filesystem_manager`
reads them: the deserialized header, the deserialized filenode table, the
packed bitmap bytes, and the data-block region at the compiled layout's
offsets. -/
structure DiskImage where
  header : Header
  filenodes : List FileNode
  bitmapBytes : List Nat
  data : List Block
deriving DecidableEq

/-- Reconstruction of the in-memory free/used vector from packed bitmap
bytes (`get_filesystem_manager`): bit `i` set on disk means block `i` is
used, i.e. in-memory `false`. -/
def unpack_bitmap (bytes : List Nat) (nblocks : Nat) : List Bool :=
  (List.range nblocks).map (fun i => (bytes.getD (i / 8) 0 >>> (i % 8)) % 2 = 0)

/-- `get_filesystem_manager`, as a function of the backing file's parsed
contents (`none` = the file does not exist). -/
def get_filesystem_manager (disk : Option DiskImage) :
    Except String FileSystemManager :=
  match disk with
  | none => FileSystemManager.init_filesystem freshData
  | some img =>
    if img.header.total_size ≠ FILESYSTEM_SIZE ∨
        img.header.block_size ≠ BLOCK_SIZE ∨ img.header.version ≠ 1 then
      FileSystemManager.init_filesystem img.data
    else if img.filenodes.length ≠ img.header.filenode_table_size then
      .error "Filenode count mismatch after deserialize."
    else
      .ok { header := img.header
            filenodes := img.filenodes
            free_block_bitmap := unpack_bitmap img.bitmapBytes img.header.num_data_blocks
            data := img.data }

/-! ## Specification-level definitions -/

/-- The free block indices of a bitmap in ascending order, starting the
numbering at `start`.  `freeIndices bm 0` is the reference against which the
first-fit allocator is verified. -/
def freeIndices : List Bool → Nat → List Nat
  | [], _ => []
  | b :: rest, start =>
    if b then start :: freeIndices rest (start + 1)
    else freeIndices rest (start + 1)

/-- Following trailing pointers from `cur` visits exactly the blocks `ch`
and then hits the end-of-chain sentinel. -/
def IsChainFrom (data : List Block) : Option Nat → List Nat → Prop
  | cur, [] => cur = none
  | cur, i :: rest =>
    cur = some i ∧ IsChainFrom data (nextOf (data.getD i zeroBlock)) rest

instance instDecIsChainFrom (data : List Block) :
    (cur : Option Nat) → (ch : List Nat) → Decidable (IsChainFrom data cur ch)
  | cur, [] => inferInstanceAs (Decidable (cur = none))
  | cur, i :: rest =>
    have : Decidable (IsChainFrom data (nextOf (data.getD i zeroBlock)) rest) :=
      instDecIsChainFrom data _ rest
    inferInstanceAs (Decidable (_ ∧ _))

/-- Following trailing pointers from `cur` visits exactly the in-range blocks
`pre` and then reaches the out-of-range index `bad` (`bad ≥ nblocks`). -/
def WalkTo (data : List Block) (nblocks : Nat) :
    Option Nat → List Nat → Nat → Prop
  | cur, [], bad => cur = some bad ∧ nblocks ≤ bad
  | cur, i :: rest, bad =>
    cur = some i ∧ i < nblocks ∧
      WalkTo data nblocks (nextOf (data.getD i zeroBlock)) rest bad

instance instDecWalkTo (data : List Block) (nblocks : Nat) :
    (cur : Option Nat) → (pre : List Nat) → (bad : Nat) →
      Decidable (WalkTo data nblocks cur pre bad)
  | cur, [], bad => inferInstanceAs (Decidable (_ ∧ _))
  | cur, i :: rest, bad =>
    have : Decidable (WalkTo data nblocks (nextOf (data.getD i zeroBlock)) rest bad) :=
      instDecWalkTo data nblocks _ rest bad
    inferInstanceAs (Decidable (_ ∧ _))

/-- Basic well-formedness of a manager state: the in-memory bitmap and the
data region both have one entry per data block, every block holds a full
4088-byte payload, and the block count is below the sentinel value (true of
every real configuration; the compiled one has 248 blocks). -/
structure WF (st : FileSystemManager) : Prop where
  bm_len : st.free_block_bitmap.length = st.header.num_data_blocks
  data_len : st.data.length = st.header.num_data_blocks
  payload_len : ∀ j, j < st.header.num_data_blocks →
    (st.data.getD j zeroBlock).payload.length = USABLE_BLOCK_SIZE
  sentinel_big : st.header.num_data_blocks < SENTINEL

/-- The block chain owned by one used filenode, as required by the data-model
invariant: an intact, strictly forward, in-range chain of exactly
`ceil(size / USABLE_BLOCK_SIZE)` blocks. -/
structure NodeChain (st : FileSystemManager) (n : FileNode) (ch : List Nat) :
    Prop where
  chain : IsChainFrom st.data n.first_block_index ch
  in_range : ∀ b ∈ ch, b < st.header.num_data_blocks
  sorted : List.Sorted (· < ·) ch
  len : ch.length = (n.size + USABLE_BLOCK_SIZE - 1) / USABLE_BLOCK_SIZE
  size_pos : 0 < n.size

/-- The inductive invariant maintained by `upload_file` and `delete_file`
from `init_filesystem`. -/
structure FsInv (st : FileSystemManager) : Prop where
  header_eq : st.header = init_header
  nodes_len : st.filenodes.length = NUM_FILENODES
  wf : WF st
  chains : ∀ i, i < st.filenodes.length →
    (st.filenodes.getD i FileNode.new).is_used = true →
    ∃ ch, NodeChain st (st.filenodes.getD i FileNode.new) ch
  disjoint : ∀ i j ci cj, i < st.filenodes.length → j < st.filenodes.length →
    i ≠ j →
    (st.filenodes.getD i FileNode.new).is_used = true →
    (st.filenodes.getD j FileNode.new).is_used = true →
    IsChainFrom st.data (st.filenodes.getD i FileNode.new).first_block_index ci →
    IsChainFrom st.data (st.filenodes.getD j FileNode.new).first_block_index cj →
    ∀ b ∈ ci, b ∉ cj
  bitmap_iff : ∀ b, b < st.header.num_data_blocks →
    (st.free_block_bitmap.getD b true = false ↔
      ∃ i ci, i < st.filenodes.length ∧
        (st.filenodes.getD i FileNode.new).is_used = true ∧
        IsChainFrom st.data (st.filenodes.getD i FileNode.new).first_block_index ci ∧
        b ∈ ci)

/-- The data-model invariant exactly as the spec states it: every used
filenode's chain has `ceil(size / usable_block_size)` blocks and ends in the
sentinel, no block is reachable from two filenodes' chains, and a block is
marked used in the bitmap iff it is reachable from some chain. -/
def SpecInv (st : FileSystemManager) : Prop :=
  (∀ i, i < st.filenodes.length →
    (st.filenodes.getD i FileNode.new).is_used = true →
    ∃ ch, IsChainFrom st.data (st.filenodes.getD i FileNode.new).first_block_index ch ∧
      ch.length = ((st.filenodes.getD i FileNode.new).size + USABLE_BLOCK_SIZE - 1)
        / USABLE_BLOCK_SIZE ∧
      ch ≠ [] ∧ (st.data.getD (ch.getLastD 0) zeroBlock).next = SENTINEL) ∧
  (∀ i j ci cj, i < st.filenodes.length → j < st.filenodes.length → i ≠ j →
    (st.filenodes.getD i FileNode.new).is_used = true →
    (st.filenodes.getD j FileNode.new).is_used = true →
    IsChainFrom st.data (st.filenodes.getD i FileNode.new).first_block_index ci →
    IsChainFrom st.data (st.filenodes.getD j FileNode.new).first_block_index cj →
    ∀ b ∈ ci, b ∉ cj) ∧
  (∀ b, b < st.header.num_data_blocks →
    (st.free_block_bitmap.getD b true = false ↔
      ∃ i ci, i < st.filenodes.length ∧
        (st.filenodes.getD i FileNode.new).is_used = true ∧
        IsChainFrom st.data (st.filenodes.getD i FileNode.new).first_block_index ci ∧
        b ∈ ci))

/-- States reachable from a fresh `init_filesystem` by completed (successful)
`upload_file` and `delete_file` operations. -/
inductive Reach : FileSystemManager → Prop where
  | init : Reach init_fs
  | upload {st st2 : FileSystemManager} {content aliasq : List Nat} :
      Reach st → st.upload_file content aliasq = .ok st2 → Reach st2
  | delete {st st2 : FileSystemManager} {aliasq : List Nat} {fuel : Nat} :
      Reach st → FileSystemManager.delete_file fuel st aliasq = some (.ok st2) →
      Reach st2

/-- The block value written for one selected index by the upload loop:
`min remaining USABLE_BLOCK_SIZE` content bytes zero-padded to a full
payload, with the given trailing pointer. -/
def writtenBlock (bytes : List Nat) (rem : Nat) (nxt : Nat) : Block :=
  { payload := bytes.take (min rem USABLE_BLOCK_SIZE) ++
      List.replicate (USABLE_BLOCK_SIZE - min rem USABLE_BLOCK_SIZE) 0
    next := nxt }

/-- The state a successful `upload_file` produces (closed form: the
allocation is the first `ceil(size / usable)` free bitmap indices in
ascending order, written by `uploadLoop`; the chosen filenode slot `fi` is
populated). -/
def uploadNode (st : FileSystemManager) (content aliasq : List Nat)
    (fi : Nat) : FileNode :=
  { alias_buf := aliasq ++
      (st.filenodes.getD fi FileNode.new).alias_buf.drop aliasq.length
    alias_len := aliasq.length
    size := content.length
    first_block_index := some (((freeIndices st.free_block_bitmap 0).take
      ((content.length + USABLE_BLOCK_SIZE - 1) / USABLE_BLOCK_SIZE)).headD 0)
    is_used := true }

/-- The state a successful `upload_file` produces (closed form: the
allocation is the first `ceil(size / usable)` free bitmap indices in
ascending order, written by `uploadLoop`; the chosen filenode slot `fi` is
populated). -/
def uploadResult (st : FileSystemManager) (content aliasq : List Nat)
    (fi : Nat) : FileSystemManager :=
  let needed := (content.length + USABLE_BLOCK_SIZE - 1) / USABLE_BLOCK_SIZE
  let indices := (freeIndices st.free_block_bitmap 0).take needed
  let res := uploadLoop st.data st.free_block_bitmap indices content content.length
  { header := st.header
    filenodes := st.filenodes.set fi (uploadNode st content aliasq fi)
    free_block_bitmap := res.2.1
    data := res.1 }

/-- Geometry of a small demonstration state used by concrete witnesses:
two data blocks, a three-slot filenode table (the operations read only
`num_data_blocks` from the header). -/
def demoHeader : Header :=
  { version := 1
    total_size := FILESYSTEM_SIZE
    block_size := BLOCK_SIZE
    filenode_table_offset := FILENODE_TABLE_OFFSET
    filenode_table_size := 3
    free_block_bitmap_offset := FREE_BLOCK_BITMAP_OFFSET
    data_blocks_offset := DATA_BLOCKS_OFFSET
    num_data_blocks := 2 }

/-- A small empty well-formed state: all blocks free, all slots unused. -/
def demoSt : FileSystemManager :=
  { header := demoHeader
    filenodes := List.replicate 3 FileNode.new
    free_block_bitmap := List.replicate 2 true
    data := List.replicate 2 zeroBlock }

/-- A used filenode with alias byte 97 ("a") and size 3, chain `[0]`. -/
def demoUsedNode : FileNode :=
  { alias_buf := 97 :: List.replicate 254 0
    alias_len := 1
    size := 3
    first_block_index := some 0
    is_used := true }

/-- A used filenode with alias byte 98 ("b") and size 3, chain `[1]`. -/
def demoUsedNodeB : FileNode :=
  { alias_buf := 98 :: List.replicate 254 0
    alias_len := 1
    size := 3
    first_block_index := some 1
    is_used := true }

/-- A data block holding the three bytes `[7, 8, 9]` and ending the chain. -/
def demoChainBlock : Block :=
  { payload := [7, 8, 9] ++ List.replicate 4085 0
    next := SENTINEL }

/-- Small state with one stored file: alias "a", size 3, intact chain `[0]`. -/
def demoUsedSt : FileSystemManager :=
  { header := demoHeader
    filenodes := [demoUsedNode, FileNode.new, FileNode.new]
    free_block_bitmap := [false, true]
    data := [demoChainBlock, zeroBlock]
  }

/-- Small state whose only filenode slot is occupied (alias "b"), so the
first-available slot scan fails while blocks remain free. -/
def demoNoSlotSt : FileSystemManager :=
  { header := demoHeader
    filenodes := [demoUsedNodeB]
    free_block_bitmap := [false, true]
    data := [zeroBlock, demoChainBlock]
  }

/-- Small corrupt state: the stored file claims 5000 bytes (two blocks) but
block 0's trailing pointer is 7, outside the two-block data region. -/
def demoCorruptSt : FileSystemManager :=
  { header := demoHeader
    filenodes := [{ alias_buf := 97 :: List.replicate 254 0
                    alias_len := 1
                    size := 5000
                    first_block_index := some 0
                    is_used := true }, FileNode.new]
    free_block_bitmap := [false, false]
    data := [{ payload := List.replicate USABLE_BLOCK_SIZE 0, next := 7 },
      { payload := List.replicate USABLE_BLOCK_SIZE 0, next := SENTINEL }]
  }

/-- A parsed backing file whose header disagrees with the compiled geometry
(`total_size` is 512 rather than 1 MiB). -/
def demoImgMismatch : DiskImage :=
  { header := { version := 1
                total_size := 512
                block_size := BLOCK_SIZE
                filenode_table_offset := FILENODE_TABLE_OFFSET
                filenode_table_size := 3
                free_block_bitmap_offset := FREE_BLOCK_BITMAP_OFFSET
                data_blocks_offset := DATA_BLOCKS_OFFSET
                num_data_blocks := 2 }
    filenodes := [FileNode.new]
    bitmapBytes := [0]
    data := [zeroBlock, zeroBlock]
  }

/-- A parsed backing file whose header matches the compiled geometry but
whose deserialized filenode table has 1 entry instead of the promised 100. -/
def demoImgBadTable : DiskImage :=
  { header := init_header
    filenodes := [FileNode.new]
    bitmapBytes := [0]
    data := [zeroBlock, zeroBlock]
  }

/-! ## List helper lemmas -/

theorem getD_set_ne {α : Type} (l : List α) (i j : Nat) (v d : α) (h : i ≠ j) :
    (l.set i v).getD j d = l.getD j d := by
  simp [List.getD_eq_getElem?_getD, List.getElem?_set_ne h]

theorem getD_set_self {α : Type} (l : List α) (i : Nat) (v d : α)
    (h : i < l.length) : (l.set i v).getD i d = v := by
  simp [List.getD_eq_getElem?_getD, List.getElem?_set_self h]

theorem getD_replicate_of_lt {α : Type} (n i : Nat) (v d : α) (h : i < n) :
    (List.replicate n v).getD i d = v := by
  simp [List.getD_eq_getElem?_getD, List.getElem?_replicate, h]

theorem findIdx?_some_spec {α : Type} (p : α → Bool) (d : α) :
    ∀ (l : List α) (n : Nat), l.findIdx? p = some n →
      n < l.length ∧ p (l.getD n d) = true ∧
        ∀ j, j < n → p (l.getD j d) = false
  | [], n => by simp [List.findIdx?]
  | x :: xs, n => by
    intro h
    rw [List.findIdx?_cons] at h
    by_cases hp : p x
    · simp [hp] at h
      subst h
      simpa using hp
    · simp [hp] at h
      obtain ⟨m, hm, rfl⟩ := h
      obtain ⟨h1, h2, h3⟩ := findIdx?_some_spec p d xs m hm
      refine ⟨by simpa using h1, by simpa using h2, ?_⟩
      intro j hj
      match j with
      | 0 => simpa using hp
      | j + 1 =>
        simpa using h3 j (by omega)

theorem findIdx?_none_spec {α : Type} (p : α → Bool) :
    ∀ (l : List α), l.findIdx? p = none → ∀ x ∈ l, p x = false
  | [] => by simp
  | x :: xs => by
    intro h
    rw [List.findIdx?_cons] at h
    by_cases hp : p x
    · simp [hp] at h
    · simp [hp] at h
      intro y hy
      rcases List.mem_cons.mp hy with rfl | hy
      · simpa using hp
      · exact findIdx?_none_spec p xs (by simpa using h) y hy

theorem find?_set_spec {α : Type} (p : α → Bool) (d : α) :
    ∀ (l : List α) (n : Nat) (v : α), n < l.length → p v = true →
      (∀ j, j < n → p (l.getD j d) = false) →
      (l.set n v).find? p = some v
  | [], n, v => by simp
  | x :: xs, 0, v => by
    intro _ hv _
    simp [List.find?, hv]
  | x :: xs, n + 1, v => by
    intro hn hv hpre
    have hx : p x = false := by simpa using hpre 0 (by omega)
    simp only [List.set]
    rw [List.find?_cons_of_neg _ (by simp [hx])]
    exact find?_set_spec p d xs n v (by simpa using hn) hv
      (fun j hj => by simpa using hpre (j + 1) (by omega))

/-! ## Properties of `freeIndices` and `find_free_blocks` -/

theorem mem_freeIndices (bm : List Bool) :
    ∀ (start x : Nat),
      x ∈ freeIndices bm start ↔
        start ≤ x ∧ x - start < bm.length ∧ bm.getD (x - start) false = true := by
  induction bm with
  | nil => intro start x; simp [freeIndices]
  | cons b rest ih =>
    intro start x
    cases b with
    | true =>
      rw [show freeIndices (true :: rest) start = start :: freeIndices rest (start + 1)
        from rfl]
      rw [List.mem_cons, ih (start + 1) x]
      constructor
      · rintro (rfl | ⟨h1, h2, h3⟩)
        · simp [List.getD]
        · refine ⟨by omega, by simp only [List.length_cons]; omega, ?_⟩
          have hx : x - start = (x - (start + 1)) + 1 := by omega
          rw [hx]
          simpa [List.getD] using h3
      · rintro ⟨h1, h2, h3⟩
        rcases Nat.eq_or_lt_of_le h1 with rfl | hlt
        · exact Or.inl rfl
        · right
          have hx : x - start = (x - (start + 1)) + 1 := by omega
          rw [hx] at h3
          simp only [List.getD_cons_succ] at h3
          exact ⟨by omega, by simp only [List.length_cons] at h2; omega, h3⟩
    | false =>
      rw [show freeIndices (false :: rest) start = freeIndices rest (start + 1)
        from rfl]
      rw [ih (start + 1) x]
      constructor
      · rintro ⟨h1, h2, h3⟩
        have hx : x - start = (x - (start + 1)) + 1 := by omega
        refine ⟨by omega, by simp only [List.length_cons]; omega, ?_⟩
        rw [hx]
        simpa [List.getD] using h3
      · rintro ⟨h1, h2, h3⟩
        rcases Nat.eq_or_lt_of_le h1 with rfl | hlt
        · simp [List.getD] at h3
        · have hx : x - start = (x - (start + 1)) + 1 := by omega
          rw [hx] at h3
          simp only [List.getD_cons_succ] at h3
          exact ⟨by omega, by simp only [List.length_cons] at h2; omega, h3⟩

theorem freeIndices_sorted (bm : List Bool) :
    ∀ (start : Nat), List.Sorted (· < ·) (freeIndices bm start) := by
  induction bm with
  | nil => intro start; simp [freeIndices]
  | cons b rest ih =>
    intro start
    cases b with
    | true =>
      rw [show freeIndices (true :: rest) start = start :: freeIndices rest (start + 1)
        from rfl]
      rw [List.sorted_cons]
      refine ⟨?_, ih (start + 1)⟩
      intro y hy
      have := (mem_freeIndices rest (start + 1) y).mp hy
      omega
    | false =>
      rw [show freeIndices (false :: rest) start = freeIndices rest (start + 1)
        from rfl]
      exact ih (start + 1)

theorem length_freeIndices (bm : List Bool) :
    ∀ (start : Nat), (freeIndices bm start).length = bm.count true := by
  induction bm with
  | nil => intro start; simp [freeIndices]
  | cons b rest ih =>
    intro start
    cases b with
    | true =>
      rw [show freeIndices (true :: rest) start = start :: freeIndices rest (start + 1)
        from rfl]
      simp [ih (start + 1), List.count_cons]
    | false =>
      rw [show freeIndices (false :: rest) start = freeIndices rest (start + 1)
        from rfl]
      simp [ih (start + 1), List.count_cons]

theorem find_free_blocks_loop_eq (bm : List Bool) :
    ∀ (start : Nat) (acc : List Nat) (needed : Nat),
      acc.length < needed →
      find_free_blocks_loop bm start acc needed =
        if needed ≤ acc.length + (freeIndices bm start).length then
          some (acc ++ (freeIndices bm start).take (needed - acc.length))
        else none := by
  induction bm with
  | nil =>
    intro start acc needed h
    rw [show freeIndices ([] : List Bool) start = [] from rfl]
    rw [if_neg (by simp; omega)]
    rfl
  | cons b rest ih =>
    intro start acc needed h
    cases b with
    | true =>
      rw [show freeIndices (true :: rest) start = start :: freeIndices rest (start + 1)
        from rfl]
      rw [show find_free_blocks_loop (true :: rest) start acc needed =
        (if (acc ++ [start]).length = needed then some (acc ++ [start])
         else find_free_blocks_loop rest (start + 1) (acc ++ [start]) needed) from rfl]
      by_cases hdone : (acc ++ [start]).length = needed
      · rw [if_pos hdone]
        have hlen : needed - acc.length = 1 := by
          simp only [List.length_append, List.length_cons, List.length_nil] at hdone
          omega
        rw [if_pos (by simp only [List.length_cons]; omega)]
        rw [hlen]
        simp
      · rw [if_neg hdone]
        have hlt : (acc ++ [start]).length < needed := by
          simp only [List.length_append, List.length_cons, List.length_nil] at hdone ⊢
          omega
        rw [ih (start + 1) (acc ++ [start]) needed hlt]
        have harith : needed - acc.length = (needed - (acc ++ [start]).length) + 1 := by
          simp only [List.length_append, List.length_cons, List.length_nil] at hlt ⊢
          omega
        rw [harith]
        simp only [List.take_succ_cons, List.length_append, List.length_cons,
          List.length_nil, List.length_take]
        rw [List.append_assoc]
        simp only [List.singleton_append]
        congr 1
        have harith2 : acc.length + (0 + 1) + (freeIndices rest (start + 1)).length =
            acc.length + ((freeIndices rest (start + 1)).length + 1) := by omega
        rw [harith2]
    | false =>
      rw [show freeIndices (false :: rest) start = freeIndices rest (start + 1)
        from rfl]
      rw [show find_free_blocks_loop (false :: rest) start acc needed =
        find_free_blocks_loop rest (start + 1) acc needed from rfl]
      exact ih (start + 1) acc needed h

theorem find_free_blocks_eq (st : FileSystemManager) (needed : Nat)
    (h : 0 < needed) :
    st.find_free_blocks needed =
      if needed ≤ st.free_blocks_count then
        some ((freeIndices st.free_block_bitmap 0).take needed)
      else none := by
  unfold FileSystemManager.find_free_blocks
  rw [find_free_blocks_loop_eq st.free_block_bitmap 0 [] needed (by simpa using h)]
  simp [length_freeIndices, FileSystemManager.free_blocks_count]

/-! ## Properties of the upload write loop -/

theorem uploadLoop_fst_length :
    ∀ (is : List Nat) (data : List Block) (bm : List Bool) (bytes : List Nat)
      (rem : Nat), (uploadLoop data bm is bytes rem).1.length = data.length
  | [], _, _, _, _ => rfl
  | i :: is, data, bm, bytes, rem => by
    simp only [uploadLoop]
    rw [uploadLoop_fst_length is]
    simp

theorem uploadLoop_snd_length :
    ∀ (is : List Nat) (data : List Block) (bm : List Bool) (bytes : List Nat)
      (rem : Nat), (uploadLoop data bm is bytes rem).2.1.length = bm.length
  | [], _, _, _, _ => rfl
  | i :: is, data, bm, bytes, rem => by
    simp only [uploadLoop]
    rw [uploadLoop_snd_length is]
    simp

theorem uploadLoop_rem_eq :
    ∀ (is : List Nat) (data : List Block) (bm : List Bool) (bytes : List Nat)
      (rem : Nat),
      (uploadLoop data bm is bytes rem).2.2 = rem - is.length * USABLE_BLOCK_SIZE
  | [], _, _, _, rem => by simp [uploadLoop]
  | i :: is, data, bm, bytes, rem => by
    simp only [uploadLoop]
    rw [uploadLoop_rem_eq is]
    have hU : USABLE_BLOCK_SIZE = 4088 := rfl
    simp only [List.length_cons, hU]
    have hmul : (is.length + 1) * 4088 = is.length * 4088 + 4088 := by ring
    rcases Nat.le_total rem 4088 with hr | hr
    · rw [Nat.min_eq_left hr]; omega
    · rw [Nat.min_eq_right hr]; omega

theorem uploadLoop_fst_getD :
    ∀ (is : List Nat) (data : List Block) (bm : List Bool) (bytes : List Nat)
      (rem j : Nat), j ∉ is →
      (uploadLoop data bm is bytes rem).1.getD j zeroBlock = data.getD j zeroBlock
  | [], _, _, _, _, _ => fun _ => rfl
  | i :: is, data, bm, bytes, rem, j => by
    intro hj
    simp only [uploadLoop]
    rw [uploadLoop_fst_getD is _ _ _ _ j (fun h => hj (List.mem_cons_of_mem i h))]
    exact getD_set_ne _ _ _ _ _ (fun h => hj (h ▸ List.mem_cons_self i is))

theorem uploadLoop_snd_getD :
    ∀ (is : List Nat) (data : List Block) (bm : List Bool) (bytes : List Nat)
      (rem j : Nat), j ∉ is →
      (uploadLoop data bm is bytes rem).2.1.getD j true = bm.getD j true
  | [], _, _, _, _, _ => fun _ => rfl
  | i :: is, data, bm, bytes, rem, j => by
    intro hj
    simp only [uploadLoop]
    rw [uploadLoop_snd_getD is _ _ _ _ j (fun h => hj (List.mem_cons_of_mem i h))]
    exact getD_set_ne _ _ _ _ _ (fun h => hj (h ▸ List.mem_cons_self i is))

theorem uploadLoop_bm_mem :
    ∀ (is : List Nat) (data : List Block) (bm : List Bool) (bytes : List Nat)
      (rem j : Nat), j ∈ is → j < bm.length →
      (uploadLoop data bm is bytes rem).2.1.getD j true = false
  | [], _, _, _, _, _ => by simp
  | i :: is, data, bm, bytes, rem, j => by
    intro hj hlen
    simp only [uploadLoop]
    by_cases hmem : j ∈ is
    · exact uploadLoop_bm_mem is _ _ _ _ j hmem (by simpa using hlen)
    · rcases List.mem_cons.mp hj with rfl | h2
      · rw [uploadLoop_snd_getD is _ _ _ _ j hmem]
        exact getD_set_self _ _ _ _ hlen
      · exact absurd h2 hmem

theorem uploadLoop_cons (data : List Block) (bm : List Bool) (i : Nat)
    (rest : List Nat) (bytes : List Nat) (rem : Nat) :
    uploadLoop data bm (i :: rest) bytes rem =
      uploadLoop (data.set i (writtenBlock bytes rem (rest.headD SENTINEL)))
        (bm.set i false) rest (bytes.drop (min rem USABLE_BLOCK_SIZE))
        (rem - min rem USABLE_BLOCK_SIZE) := by
  cases rest <;> rfl

theorem uploadLoop_chain :
    ∀ (rest : List Nat) (i : Nat) (data : List Block) (bm : List Bool)
      (bytes : List Nat) (rem : Nat),
      (i :: rest).Nodup → (∀ x ∈ i :: rest, x < data.length) →
      data.length ≤ SENTINEL →
      IsChainFrom (uploadLoop data bm (i :: rest) bytes rem).1 (some i) (i :: rest)
  | [], i, data, bm, bytes, rem => by
    intro hnd hlt hsen
    have hi : i < data.length := hlt i (List.mem_cons_self i [])
    refine ⟨rfl, ?_⟩
    rw [uploadLoop_cons]
    show IsChainFrom _ (nextOf ((uploadLoop _ _ [] _ _).1.getD i zeroBlock)) []
    simp only [uploadLoop]
    rw [getD_set_self _ _ _ _ hi]
    simp [IsChainFrom, writtenBlock, nextOf]
  | j :: rest, i, data, bm, bytes, rem => by
    intro hnd hlt hsen
    have hi : i < data.length := hlt i (List.mem_cons_self i _)
    have hj : j < data.length := hlt j (by simp)
    have hine : i ∉ j :: rest := (List.nodup_cons.mp hnd).1
    refine ⟨rfl, ?_⟩
    rw [uploadLoop_cons]
    rw [uploadLoop_fst_getD (j :: rest) _ _ _ _ i hine]
    rw [getD_set_self _ _ _ _ hi]
    have hnext : nextOf (writtenBlock bytes rem ((j :: rest).headD SENTINEL)) = some j := by
      simp only [writtenBlock, nextOf, List.headD_cons]
      rw [if_neg (by omega)]
    rw [hnext]
    exact uploadLoop_chain rest j _ _ _ _ (List.nodup_cons.mp hnd).2
      (by intro x hx; have := hlt x (List.mem_cons_of_mem i hx); simpa using this)
      (by simpa using hsen)

/-! ## Properties of the download walk -/

theorem downloadLoop_none_pos (nblocks : Nat) (data : List Block) (rem : Nat)
    (acc : List Nat) (h : rem ≠ 0) :
    downloadLoop nblocks data rem none acc = .error (.incomplete rem) := by
  rw [downloadLoop]
  simp [h]

theorem downloadLoop_none_zero (nblocks : Nat) (data : List Block)
    (acc : List Nat) : downloadLoop nblocks data 0 none acc = .ok acc := by
  rw [downloadLoop]
  simp

theorem downloadLoop_some_zero (nblocks : Nat) (data : List Block) (i : Nat)
    (acc : List Nat) : downloadLoop nblocks data 0 (some i) acc = .ok acc := by
  rw [downloadLoop]
  simp

theorem downloadLoop_oob (nblocks : Nat) (data : List Block) (rem i : Nat)
    (acc : List Nat) (h0 : rem ≠ 0) (hi : nblocks ≤ i) :
    downloadLoop nblocks data rem (some i) acc = .error (.invalidBlockIndex i) := by
  rw [downloadLoop]
  rw [if_neg h0, if_pos hi]

theorem downloadLoop_step (nblocks : Nat) (data : List Block) (rem i : Nat)
    (acc : List Nat) (h0 : rem ≠ 0) (hi : i < nblocks) :
    downloadLoop nblocks data rem (some i) acc =
      if rem - min rem USABLE_BLOCK_SIZE = 0 then
        .ok (acc ++ (data.getD i zeroBlock).payload.take (min rem USABLE_BLOCK_SIZE))
      else
        downloadLoop nblocks data (rem - min rem USABLE_BLOCK_SIZE)
          (nextOf (data.getD i zeroBlock))
          (acc ++ (data.getD i zeroBlock).payload.take (min rem USABLE_BLOCK_SIZE)) := by
  conv =>
    lhs
    rw [downloadLoop]
  rw [if_neg h0, if_neg (by omega : ¬ nblocks ≤ i)]

theorem downloadLoop_ok_length (nblocks : Nat) (data : List Block)
    (hpay : ∀ j, j < nblocks →
      (data.getD j zeroBlock).payload.length = USABLE_BLOCK_SIZE) :
    ∀ (rem : Nat) (cur : Option Nat) (acc out : List Nat),
      downloadLoop nblocks data rem cur acc = .ok out →
      out.length = acc.length + rem := by
  intro rem
  induction rem using Nat.strong_induction_on with
  | _ rem ih =>
    intro cur acc out h
    match cur with
    | none =>
      by_cases h0 : rem = 0
      · subst h0
        rw [downloadLoop_none_zero] at h
        cases h
        simp
      · rw [downloadLoop_none_pos _ _ _ _ h0] at h
        cases h
    | some i =>
      by_cases h0 : rem = 0
      · subst h0
        rw [downloadLoop_some_zero] at h
        cases h
        simp
      · by_cases hi : i < nblocks
        · rw [downloadLoop_step _ _ _ _ _ h0 hi] at h
          have hU : USABLE_BLOCK_SIZE = 4088 := rfl
          have hkle : min rem USABLE_BLOCK_SIZE ≤
              (data.getD i zeroBlock).payload.length := by
            rw [hpay i hi]; omega
          by_cases hz : rem - min rem USABLE_BLOCK_SIZE = 0
          · rw [if_pos hz] at h
            cases h
            simp only [List.length_append, List.length_take]
            rw [hpay i hi]
            omega
          · rw [if_neg hz] at h
            have := ih (rem - min rem USABLE_BLOCK_SIZE) (by omega) _ _ _ h
            rw [this]
            simp only [List.length_append, List.length_take]
            rw [hpay i hi]
            omega
        · rw [downloadLoop_oob _ _ _ _ _ h0 (by omega)] at h
          cases h

theorem uploadLoop_roundtrip :
    ∀ (rest : List Nat) (i : Nat) (data : List Block) (bm : List Bool)
      (bytes : List Nat) (rem : Nat) (acc : List Nat) (nblocks : Nat),
      data.length = nblocks → nblocks < SENTINEL →
      (i :: rest).Nodup → (∀ x ∈ i :: rest, x < nblocks) →
      bytes.length = rem → 0 < rem →
      (i :: rest).length = (rem + USABLE_BLOCK_SIZE - 1) / USABLE_BLOCK_SIZE →
      downloadLoop nblocks (uploadLoop data bm (i :: rest) bytes rem).1 rem
        (some i) acc = .ok (acc ++ bytes)
  | [], i, data, bm, bytes, rem, acc, nblocks => by
    intro hdl hsen hnd hlt hby hpos hlen
    have hU : USABLE_BLOCK_SIZE = 4088 := rfl
    have hremle : rem ≤ USABLE_BLOCK_SIZE := by
      simp only [List.length_cons, List.length_nil] at hlen
      rw [hU] at hlen ⊢
      omega
    have hi : i < nblocks := hlt i (List.mem_cons_self i [])
    have hmin : min rem USABLE_BLOCK_SIZE = rem := Nat.min_eq_left hremle
    rw [uploadLoop_cons]
    show downloadLoop nblocks (data.set i (writtenBlock bytes rem SENTINEL)) rem
      (some i) acc = .ok (acc ++ bytes)
    rw [downloadLoop_step _ _ _ _ _ (by omega) hi]
    rw [getD_set_self _ _ _ _ (by omega)]
    rw [if_pos (by omega)]
    simp only [writtenBlock, hmin]
    have ht1 : bytes.take rem = bytes := by
      rw [← hby]
      exact List.take_length bytes
    have ht2 : List.take rem (bytes ++ List.replicate (USABLE_BLOCK_SIZE - rem) 0) =
        bytes := by
      rw [← hby]
      exact List.take_left bytes _
    rw [ht1, ht2]
  | j :: rest, i, data, bm, bytes, rem, acc, nblocks => by
    intro hdl hsen hnd hlt hby hpos hlen
    have hU : USABLE_BLOCK_SIZE = 4088 := rfl
    have hremgt : USABLE_BLOCK_SIZE < rem := by
      simp only [List.length_cons] at hlen
      rw [hU] at hlen ⊢
      omega
    have hi : i < nblocks := hlt i (List.mem_cons_self i _)
    have hj : j < nblocks := hlt j (by simp)
    have hine : i ∉ j :: rest := (List.nodup_cons.mp hnd).1
    have hmin : min rem USABLE_BLOCK_SIZE = USABLE_BLOCK_SIZE :=
      Nat.min_eq_right (by omega)
    rw [uploadLoop_cons]
    have hfst : (uploadLoop (data.set i (writtenBlock bytes rem ((j :: rest).headD SENTINEL)))
        (bm.set i false) (j :: rest) (bytes.drop (min rem USABLE_BLOCK_SIZE))
        (rem - min rem USABLE_BLOCK_SIZE)).1.getD i zeroBlock =
        writtenBlock bytes rem ((j :: rest).headD SENTINEL) := by
      rw [uploadLoop_fst_getD (j :: rest) _ _ _ _ i hine]
      exact getD_set_self _ _ _ _ (by omega)
    rw [downloadLoop_step _ _ _ _ _ (by omega) hi]
    rw [hfst]
    rw [if_neg (by omega)]
    have hpayload : (writtenBlock bytes rem ((j :: rest).headD SENTINEL)).payload.take
        (min rem USABLE_BLOCK_SIZE) = bytes.take USABLE_BLOCK_SIZE := by
      simp only [writtenBlock, hmin]
      have h1 : (bytes.take USABLE_BLOCK_SIZE).length = USABLE_BLOCK_SIZE := by
        rw [List.length_take]
        omega
      rw [show USABLE_BLOCK_SIZE - USABLE_BLOCK_SIZE = 0 from by omega]
      rw [show (List.replicate 0 (0 : Nat)) = [] from rfl, List.append_nil]
      rw [List.take_take]
      simp
    rw [hpayload]
    have hnext : nextOf (writtenBlock bytes rem ((j :: rest).headD SENTINEL)) = some j := by
      simp only [writtenBlock, nextOf, List.headD_cons]
      rw [if_neg (by omega)]
    rw [hnext, hmin]
    have ih := uploadLoop_roundtrip rest j
      (data.set i (writtenBlock bytes rem ((j :: rest).headD SENTINEL)))
      (bm.set i false) (bytes.drop USABLE_BLOCK_SIZE) (rem - USABLE_BLOCK_SIZE)
      (acc ++ bytes.take USABLE_BLOCK_SIZE) nblocks
      (by simpa using hdl) hsen (List.nodup_cons.mp hnd).2
      (fun x hx => hlt x (List.mem_cons_of_mem i hx))
      (by rw [List.length_drop]; omega) (by omega)
      (by
        simp only [List.length_cons] at hlen ⊢
        rw [hU] at hlen ⊢
        omega)
    rw [ih]
    rw [List.append_assoc, List.take_append_drop]

/-! ## Characterization of successful uploads -/

theorem upload_spec (st : FileSystemManager) (content aliasq : List Nat)
    (ha1 : aliasq.length ≠ 0) (ha2 : aliasq.length ≤ MAX_FILENAME_LENGTH)
    (hau : aliasInUse st aliasq = false)
    (hc : content.length ≠ 0)
    (hcap : content.length ≤ st.free_blocks_count * USABLE_BLOCK_SIZE)
    (fi : Nat) (hfi : st.find_free_filenode_index = some fi) :
    st.upload_file content aliasq = .ok (uploadResult st content aliasq fi) := by
  have hU : USABLE_BLOCK_SIZE = 4088 := rfl
  have hfree : st.free_blocks_count = (freeIndices st.free_block_bitmap 0).length :=
    (length_freeIndices _ 0).symm
  have hneedpos : 0 < (content.length + USABLE_BLOCK_SIZE - 1) / USABLE_BLOCK_SIZE := by
    rw [hU]
    omega
  have hneedle : (content.length + USABLE_BLOCK_SIZE - 1) / USABLE_BLOCK_SIZE ≤
      st.free_blocks_count := by
    rw [hU]
    rw [hU] at hcap
    omega
  have hlen_indices : ((freeIndices st.free_block_bitmap 0).take
      ((content.length + USABLE_BLOCK_SIZE - 1) / USABLE_BLOCK_SIZE)).length =
      (content.length + USABLE_BLOCK_SIZE - 1) / USABLE_BLOCK_SIZE := by
    rw [List.length_take]
    omega
  simp only [FileSystemManager.upload_file]
  rw [if_neg (not_or.mpr ⟨ha1, by omega⟩)]
  rw [if_neg (by rw [hau]; simp : ¬ aliasInUse st aliasq = true)]
  rw [if_neg hc]
  rw [if_neg (by omega : ¬ content.length > st.free_blocks_count * USABLE_BLOCK_SIZE)]
  rw [hfi]
  simp only []
  rw [if_neg (by omega)]
  rw [if_neg (by omega : ¬ (content.length + USABLE_BLOCK_SIZE - 1) / USABLE_BLOCK_SIZE
    > st.free_blocks_count)]
  rw [find_free_blocks_eq st _ hneedpos, if_pos hneedle]
  simp only []
  rw [if_neg ?hrem]
  case hrem =>
    rw [uploadLoop_rem_eq]
    rw [hlen_indices]
    simp only [ne_eq, not_not]
    rw [hU]
    rw [hU] at hcap
    omega
  rfl

theorem upload_ok_elim (st : FileSystemManager) (content aliasq : List Nat)
    (st2 : FileSystemManager) (h : st.upload_file content aliasq = .ok st2) :
    aliasq.length ≠ 0 ∧ aliasq.length ≤ MAX_FILENAME_LENGTH ∧
    aliasInUse st aliasq = false ∧ content.length ≠ 0 ∧
    content.length ≤ st.free_blocks_count * USABLE_BLOCK_SIZE ∧
    ∃ fi, st.find_free_filenode_index = some fi ∧
      st2 = uploadResult st content aliasq fi := by
  have hU : USABLE_BLOCK_SIZE = 4088 := rfl
  simp only [FileSystemManager.upload_file] at h
  split at h
  · simp at h
  next hcond1 =>
  split at h
  next hcond2 => simp at h
  next hcond2 =>
  split at h
  next hcond3 => simp at h
  next hcond3 =>
  split at h
  next hcond4 => simp at h
  next hcond4 =>
  split at h
  next hfi0 => simp at h
  next fi hfi =>
  split at h
  next hcond5 => simp at h
  next hcond5 =>
  split at h
  next hcond6 => simp at h
  next hcond6 =>
  split at h
  next hblocks => simp at h
  next block_indices hblocks =>
  split at h
  next hrem => simp at h
  next hrem =>
  have hneedpos : 0 < (content.length + USABLE_BLOCK_SIZE - 1) / USABLE_BLOCK_SIZE := by
    rw [hU]
    omega
  rw [find_free_blocks_eq st _ hneedpos] at hblocks
  rw [if_pos (by omega : (content.length + USABLE_BLOCK_SIZE - 1) / USABLE_BLOCK_SIZE
    ≤ st.free_blocks_count)] at hblocks
  cases hblocks
  refine ⟨by push_neg at hcond1; exact hcond1.1, by push_neg at hcond1; omega,
    by simpa using hcond2, hcond3, by omega, fi, hfi, ?_⟩
  cases h
  rfl

theorem getD_mem_of_lt {α : Type} (l : List α) (j : Nat) (d : α)
    (h : j < l.length) : l.getD j d ∈ l := by
  rw [List.getD_eq_getElem?_getD, List.getElem?_eq_getElem h]
  simpa using List.getElem_mem h

theorem take_freeIndices_mem (bm : List Bool) (needed x : Nat)
    (hx : x ∈ (freeIndices bm 0).take needed) :
    x < bm.length ∧ bm.getD x false = true := by
  have h := (mem_freeIndices bm 0 x).mp (List.mem_of_mem_take hx)
  simpa using h

theorem take_freeIndices_sorted (bm : List Bool) (needed : Nat) :
    List.Sorted (· < ·) ((freeIndices bm 0).take needed) :=
  List.Pairwise.sublist (List.take_sublist _ _) (freeIndices_sorted bm 0)

theorem take_freeIndices_nodup (bm : List Bool) (needed : Nat) :
    ((freeIndices bm 0).take needed).Nodup :=
  (take_freeIndices_sorted bm needed).nodup

theorem download_uploadResult (st : FileSystemManager) (content aliasq : List Nat)
    (hWF : WF st)
    (ha1 : aliasq.length ≠ 0) (ha2 : aliasq.length ≤ MAX_FILENAME_LENGTH)
    (hau : aliasInUse st aliasq = false)
    (hc : content.length ≠ 0)
    (hcap : content.length ≤ st.free_blocks_count * USABLE_BLOCK_SIZE)
    (fi : Nat) (hfi : st.find_free_filenode_index = some fi) :
    (uploadResult st content aliasq fi).download_file aliasq = .ok content := by
  have hU : USABLE_BLOCK_SIZE = 4088 := rfl
  have hfree : st.free_blocks_count = (freeIndices st.free_block_bitmap 0).length :=
    (length_freeIndices _ 0).symm
  have hneedle : (content.length + USABLE_BLOCK_SIZE - 1) / USABLE_BLOCK_SIZE ≤
      st.free_blocks_count := by
    rw [hU]
    rw [hU] at hcap
    omega
  have hlen_ind : ((freeIndices st.free_block_bitmap 0).take
      ((content.length + USABLE_BLOCK_SIZE - 1) / USABLE_BLOCK_SIZE)).length =
      (content.length + USABLE_BLOCK_SIZE - 1) / USABLE_BLOCK_SIZE := by
    rw [List.length_take]
    omega
  obtain ⟨i0, rest, hind⟩ : ∃ i0 rest,
      (freeIndices st.free_block_bitmap 0).take
        ((content.length + USABLE_BLOCK_SIZE - 1) / USABLE_BLOCK_SIZE) =
      i0 :: rest := by
    apply List.exists_cons_of_ne_nil
    intro hnil
    rw [hnil] at hlen_ind
    simp only [List.length_nil] at hlen_ind
    rw [hU] at hlen_ind
    omega
  have hfi2 : st.filenodes.findIdx? (fun node => !node.is_used) = some fi := hfi
  obtain ⟨hfilt, -, -⟩ :=
    findIdx?_some_spec (fun node => !node.is_used) FileNode.new st.filenodes fi hfi2
  have hmatch_all : ∀ x ∈ st.filenodes, aliasMatch x aliasq = false := by
    intro x hx
    have := List.any_eq_false.mp hau x hx
    simpa using this
  have hfind := find?_set_spec (fun node => aliasMatch node aliasq) FileNode.new
    st.filenodes fi (uploadNode st content aliasq fi) hfilt
    (by
      simp only [aliasMatch, uploadNode, Bool.and_eq_true, decide_eq_true_eq]
      exact ⟨trivial, List.take_left aliasq _⟩)
    (fun j hj => hmatch_all _ (getD_mem_of_lt _ _ _ (by omega)))
  simp only [FileSystemManager.download_file, uploadResult]
  rw [hfind]
  simp only [uploadNode]
  rw [hind]
  simp only [List.headD_cons]
  have hrt := uploadLoop_roundtrip rest i0 st.data st.free_block_bitmap content
    content.length [] st.header.num_data_blocks hWF.data_len hWF.sentinel_big
    (hind ▸ take_freeIndices_nodup st.free_block_bitmap _)
    (by
      intro x hx
      have := take_freeIndices_mem st.free_block_bitmap
        ((content.length + USABLE_BLOCK_SIZE - 1) / USABLE_BLOCK_SIZE) x
        (hind ▸ hx)
      rw [hWF.bm_len] at this
      exact this.1)
    rfl (by omega) (by rw [← hind]; exact hlen_ind)
  simpa using hrt

/-! ## Claim C1 -/

/-- C1: for every content of size `S` with `1 ≤ S` and `S` at most the free
capacity (`free_blocks_count × usable_block_size`; the total usable capacity
on a fresh filesystem), uploading it under a fresh valid alias on a
well-formed filesystem with a free filenode slot succeeds, and downloading
that alias then emits exactly the original `S` bytes, byte-identical and in
order. -/
theorem c1_round_trip (st : FileSystemManager) (content aliasq : List Nat)
    (hWF : WF st)
    (hS : 1 ≤ content.length)
    (hcap : content.length ≤ st.free_blocks_count * USABLE_BLOCK_SIZE)
    (ha1 : 1 ≤ aliasq.length) (ha2 : aliasq.length ≤ MAX_FILENAME_LENGTH)
    (hau : aliasInUse st aliasq = false)
    (hslot : st.find_free_filenode_index.isSome = true) :
    ∃ st2, st.upload_file content aliasq = .ok st2 ∧
      st2.download_file aliasq = .ok content := by
  obtain ⟨fi, hfi⟩ := Option.isSome_iff_exists.mp hslot
  exact ⟨uploadResult st content aliasq fi,
    upload_spec st content aliasq (by omega) ha2 hau (by omega) hcap fi hfi,
    download_uploadResult st content aliasq hWF (by omega) ha2 hau (by omega)
      hcap fi hfi⟩

/-- Witness for C1 at a concrete input: uploading the three bytes `[7, 8, 9]`
under alias `"a"` on the small empty state and downloading them back. -/
theorem demoSt_WF : WF demoSt := by
  refine ⟨rfl, rfl, ?_, by decide⟩
  intro j hj
  show ((List.replicate 2 zeroBlock).getD j zeroBlock).payload.length = USABLE_BLOCK_SIZE
  rw [getD_replicate_of_lt _ _ _ _ (by simpa [demoSt, demoHeader] using hj)]
  exact List.length_replicate _ _

theorem c1_round_trip_witness :
    ∃ st2, demoSt.upload_file [7, 8, 9] [97] = .ok st2 ∧
      st2.download_file [97] = .ok [7, 8, 9] :=
  c1_round_trip demoSt [7, 8, 9] [97] demoSt_WF
    (by decide) (by decide) (by decide) (by decide) (by decide) (by decide)

/-! ## Claim C4 -/

/-- C4: a successful upload allocates exactly the first `blocks_needed` free
indices in ascending bitmap order (the result of `find_free_blocks`, which
equals the first `ceil(S/usable)` entries of the ascending free-index list),
links each allocated block's trailing pointer to the next selected index
with the sentinel in the last block (`IsChainFrom` from the first allocated
index, which the new filenode records), and marks each selected block used;
the created chain is singly linked and strictly forward. -/
theorem c4_allocation_policy (st st2 : FileSystemManager)
    (content aliasq : List Nat) (hWF : WF st)
    (h : st.upload_file content aliasq = .ok st2) :
    ∃ indices,
      st.find_free_blocks
        ((content.length + USABLE_BLOCK_SIZE - 1) / USABLE_BLOCK_SIZE) =
        some indices ∧
      indices = (freeIndices st.free_block_bitmap 0).take
        ((content.length + USABLE_BLOCK_SIZE - 1) / USABLE_BLOCK_SIZE) ∧
      List.Chain' (· < ·) indices ∧
      IsChainFrom st2.data (some (indices.headD 0)) indices ∧
      (∀ b ∈ indices, st2.free_block_bitmap.getD b true = false) ∧
      ∃ fi, st.find_free_filenode_index = some fi ∧
        (st2.filenodes.getD fi FileNode.new).first_block_index =
          some (indices.headD 0) := by
  obtain ⟨ha1, ha2, hau, hc, hcap, fi, hfi, hst2⟩ :=
    upload_ok_elim st content aliasq st2 h
  have hU : USABLE_BLOCK_SIZE = 4088 := rfl
  have hfree : st.free_blocks_count = (freeIndices st.free_block_bitmap 0).length :=
    (length_freeIndices _ 0).symm
  have hneedpos : 0 < (content.length + USABLE_BLOCK_SIZE - 1) / USABLE_BLOCK_SIZE := by
    rw [hU]
    omega
  have hneedle : (content.length + USABLE_BLOCK_SIZE - 1) / USABLE_BLOCK_SIZE ≤
      st.free_blocks_count := by
    rw [hU]
    rw [hU] at hcap
    omega
  have hlen_ind : ((freeIndices st.free_block_bitmap 0).take
      ((content.length + USABLE_BLOCK_SIZE - 1) / USABLE_BLOCK_SIZE)).length =
      (content.length + USABLE_BLOCK_SIZE - 1) / USABLE_BLOCK_SIZE := by
    rw [List.length_take]
    omega
  refine ⟨(freeIndices st.free_block_bitmap 0).take
    ((content.length + USABLE_BLOCK_SIZE - 1) / USABLE_BLOCK_SIZE), ?_, rfl, ?_, ?_, ?_, ?_⟩
  · rw [find_free_blocks_eq st _ hneedpos, if_pos hneedle]
  · exact List.chain'_iff_pairwise.mpr (take_freeIndices_sorted _ _)
  · obtain ⟨i0, rest, hind⟩ : ∃ i0 rest,
        (freeIndices st.free_block_bitmap 0).take
          ((content.length + USABLE_BLOCK_SIZE - 1) / USABLE_BLOCK_SIZE) =
        i0 :: rest := by
      apply List.exists_cons_of_ne_nil
      intro hnil
      rw [hnil] at hlen_ind
      simp only [List.length_nil] at hlen_ind
      omega
    rw [hst2, hind]
    simp only [List.headD_cons, uploadResult]
    rw [hind]
    apply uploadLoop_chain
    · exact hind ▸ take_freeIndices_nodup st.free_block_bitmap _
    · intro x hx
      have := take_freeIndices_mem st.free_block_bitmap _ x (hind ▸ hx)
      rw [hWF.bm_len, ← hWF.data_len] at this
      exact this.1
    · rw [hWF.data_len]
      have := hWF.sentinel_big
      omega
  · intro b hb
    have hblen := (take_freeIndices_mem st.free_block_bitmap _ b hb).1
    rw [hst2]
    simp only [uploadResult]
    exact uploadLoop_bm_mem _ _ _ _ _ b hb hblen
  · refine ⟨fi, hfi, ?_⟩
    have hfi2 : st.filenodes.findIdx? (fun node => !node.is_used) = some fi := hfi
    obtain ⟨hfilt, -, -⟩ :=
      findIdx?_some_spec (fun node => !node.is_used) FileNode.new st.filenodes fi hfi2
    rw [hst2]
    simp only [uploadResult]
    rw [getD_set_self _ _ _ _ hfilt]
    rfl

/-- Witness for C4 at a concrete input: after uploading three bytes on the
small empty state, block 0 is the allocation. -/
theorem c4_allocation_policy_witness :
    ∃ indices,
      demoSt.find_free_blocks
        (((7 :: 8 :: 9 :: List.nil).length + USABLE_BLOCK_SIZE - 1) / USABLE_BLOCK_SIZE) =
        some indices ∧
      indices = (freeIndices demoSt.free_block_bitmap 0).take
        (((7 :: 8 :: 9 :: List.nil).length + USABLE_BLOCK_SIZE - 1) / USABLE_BLOCK_SIZE) ∧
      List.Chain' (· < ·) indices ∧
      IsChainFrom (uploadResult demoSt [7, 8, 9] [97] 0).data
        (some (indices.headD 0)) indices ∧
      (∀ b ∈ indices,
        (uploadResult demoSt [7, 8, 9] [97] 0).free_block_bitmap.getD b true = false) ∧
      ∃ fi, demoSt.find_free_filenode_index = some fi ∧
        ((uploadResult demoSt [7, 8, 9] [97] 0).filenodes.getD fi
          FileNode.new).first_block_index = some (indices.headD 0) :=
  c4_allocation_policy demoSt (uploadResult demoSt [7, 8, 9] [97] 0) [7, 8, 9] [97]
    demoSt_WF
    (upload_spec demoSt [7, 8, 9] [97] (by decide) (by decide) (by decide)
      (by decide) (by decide) 0 (by decide))

/-! ## Claim C3 -/

/-- C3: `upload_file` performs its validation checks in the spec's order and
returns a distinct error for the first one that fails: (1) alias length,
(2) alias uniqueness, (3) non-empty source, (4) total free space,
(5) free filenode slot, (6) enough free blocks.  The final conjunct shows
check (6) is subsumed by check (4): once `S ≤ free × usable` holds,
`ceil(S/usable) ≤ free` holds too, so check (6) can never be the first to
fail (it is still performed, with its own distinct error).  In this
embedding an error outcome carries no successor state: all six checks
precede the first mutation in `upload_file`, so a failed upload leaves the
filenode table and bitmap unchanged with zero blocks allocated. -/
theorem c3_upload_check_order (st : FileSystemManager)
    (content aliasq : List Nat) :
    (aliasq.length = 0 ∨ aliasq.length > MAX_FILENAME_LENGTH →
      st.upload_file content aliasq = .error .aliasLength) ∧
    (aliasq.length ≠ 0 → aliasq.length ≤ MAX_FILENAME_LENGTH →
      aliasInUse st aliasq = true →
      st.upload_file content aliasq = .error .aliasExists) ∧
    (aliasq.length ≠ 0 → aliasq.length ≤ MAX_FILENAME_LENGTH →
      aliasInUse st aliasq = false → content.length = 0 →
      st.upload_file content aliasq = .error .emptyFile) ∧
    (aliasq.length ≠ 0 → aliasq.length ≤ MAX_FILENAME_LENGTH →
      aliasInUse st aliasq = false → content.length ≠ 0 →
      content.length > st.free_blocks_count * USABLE_BLOCK_SIZE →
      st.upload_file content aliasq =
        .error (.notEnoughSpace content.length
          (st.free_blocks_count * USABLE_BLOCK_SIZE))) ∧
    (aliasq.length ≠ 0 → aliasq.length ≤ MAX_FILENAME_LENGTH →
      aliasInUse st aliasq = false → content.length ≠ 0 →
      content.length ≤ st.free_blocks_count * USABLE_BLOCK_SIZE →
      st.find_free_filenode_index = none →
      st.upload_file content aliasq = .error .noFreeFilenode) ∧
    (content.length ≤ st.free_blocks_count * USABLE_BLOCK_SIZE →
      (content.length + USABLE_BLOCK_SIZE - 1) / USABLE_BLOCK_SIZE ≤
        st.free_blocks_count) := by
  have hU : USABLE_BLOCK_SIZE = 4088 := rfl
  refine ⟨?_, ?_, ?_, ?_, ?_, ?_⟩
  · intro h1
    simp only [FileSystemManager.upload_file]
    rw [if_pos h1]
  · intro h1 h2 h3
    simp only [FileSystemManager.upload_file]
    rw [if_neg (not_or.mpr ⟨h1, by omega⟩), if_pos h3]
  · intro h1 h2 h3 h4
    simp only [FileSystemManager.upload_file]
    rw [if_neg (not_or.mpr ⟨h1, by omega⟩),
      if_neg (by rw [h3]; simp : ¬ aliasInUse st aliasq = true), if_pos h4]
  · intro h1 h2 h3 h4 h5
    simp only [FileSystemManager.upload_file]
    rw [if_neg (not_or.mpr ⟨h1, by omega⟩),
      if_neg (by rw [h3]; simp : ¬ aliasInUse st aliasq = true),
      if_neg h4, if_pos h5]
  · intro h1 h2 h3 h4 h5 h6
    simp only [FileSystemManager.upload_file]
    rw [if_neg (not_or.mpr ⟨h1, by omega⟩),
      if_neg (by rw [h3]; simp : ¬ aliasInUse st aliasq = true),
      if_neg h4, if_neg (by omega), h6]
  · intro h5
    rw [hU] at h5 ⊢
    omega

/-- Witness for C3: each of the five reachable first-failure errors at a
concrete input, plus the check-4-implies-check-6 bound on the small state. -/
theorem c3_upload_check_order_witness :
    demoSt.upload_file [1] [] = .error .aliasLength ∧
    demoUsedSt.upload_file [1] [97] = .error .aliasExists ∧
    demoSt.upload_file [] [97] = .error .emptyFile ∧
    demoSt.upload_file (List.replicate 9000 5) [97] =
      .error (.notEnoughSpace (List.replicate 9000 5).length
        (demoSt.free_blocks_count * USABLE_BLOCK_SIZE)) ∧
    demoNoSlotSt.upload_file [1] [97] = .error .noFreeFilenode ∧
    ((1 + USABLE_BLOCK_SIZE - 1) / USABLE_BLOCK_SIZE ≤ demoSt.free_blocks_count) :=
  ⟨(c3_upload_check_order demoSt [1] []).1 (by decide),
   (c3_upload_check_order demoUsedSt [1] [97]).2.1 (by decide) (by decide) (by decide),
   (c3_upload_check_order demoSt [] [97]).2.2.1 (by decide) (by decide) (by decide)
     (by decide),
   (c3_upload_check_order demoSt (List.replicate 9000 5) [97]).2.2.2.1 (by decide)
     (by decide) (by decide)
     (by rw [List.length_replicate]; decide)
     (by rw [List.length_replicate]; decide),
   (c3_upload_check_order demoNoSlotSt [1] [97]).2.2.2.2.1 (by decide) (by decide)
     (by decide) (by decide) (by decide) (by decide),
   (c3_upload_check_order demoSt [1] [97]).2.2.2.2.2 (by decide)⟩

/-! ## Claim C5 -/

theorem demoUsedSt_WF : WF demoUsedSt := by
  have hU : USABLE_BLOCK_SIZE = 4088 := rfl
  refine ⟨rfl, rfl, ?_, by decide⟩
  intro j hj
  have hj2 : j < 2 := by simpa [demoUsedSt, demoHeader] using hj
  match j, hj2 with
  | 0, _ =>
    show demoChainBlock.payload.length = USABLE_BLOCK_SIZE
    simp only [demoChainBlock, List.length_append, List.length_replicate, hU]
    rfl
  | 1, _ =>
    show zeroBlock.payload.length = USABLE_BLOCK_SIZE
    exact List.length_replicate _ _

/-- C5: behavior of `download_file(alias)`: it fails with NotFound exactly
when no used filenode matches the alias; otherwise it runs the chain walk
from the node's `first_block_index` with `remaining = size`.  During the
walk, a visited index `≥ num_data_blocks` (remaining bytes pending) fails
with the corrupt-chain error; a chain that ends while `remaining > 0` fails
as incomplete; an in-range visited block emits exactly
`min(remaining, usable_block_size)` payload bytes, appended in chain order;
and a successful download emits exactly `size` bytes. -/
theorem c5_download_contract (st : FileSystemManager) (aliasq : List Nat)
    (hWF : WF st) :
    (st.filenodes.find? (fun node => aliasMatch node aliasq) = none →
      st.download_file aliasq = .error .notFound) ∧
    (∀ node, st.filenodes.find? (fun node => aliasMatch node aliasq) = some node →
      st.download_file aliasq =
        downloadLoop st.header.num_data_blocks st.data node.size
          node.first_block_index []) ∧
    (∀ rem i acc, rem ≠ 0 → st.header.num_data_blocks ≤ i →
      downloadLoop st.header.num_data_blocks st.data rem (some i) acc =
        .error (.invalidBlockIndex i)) ∧
    (∀ rem acc, rem ≠ 0 →
      downloadLoop st.header.num_data_blocks st.data rem none acc =
        .error (.incomplete rem)) ∧
    (∀ rem i acc, rem ≠ 0 → i < st.header.num_data_blocks →
      downloadLoop st.header.num_data_blocks st.data rem (some i) acc =
        (if rem - min rem USABLE_BLOCK_SIZE = 0 then
          .ok (acc ++ (st.data.getD i zeroBlock).payload.take
            (min rem USABLE_BLOCK_SIZE))
        else
          downloadLoop st.header.num_data_blocks st.data
            (rem - min rem USABLE_BLOCK_SIZE) (nextOf (st.data.getD i zeroBlock))
            (acc ++ (st.data.getD i zeroBlock).payload.take
              (min rem USABLE_BLOCK_SIZE)))) ∧
    (∀ out, st.download_file aliasq = .ok out →
      ∃ node, st.filenodes.find? (fun node => aliasMatch node aliasq) = some node ∧
        out.length = node.size) := by
  refine ⟨?_, ?_, ?_, ?_, ?_, ?_⟩
  · intro hnone
    simp only [FileSystemManager.download_file]
    rw [hnone]
  · intro node hnode
    simp only [FileSystemManager.download_file]
    rw [hnode]
  · intro rem i acc h0 hi
    exact downloadLoop_oob _ _ _ _ _ h0 hi
  · intro rem acc h0
    exact downloadLoop_none_pos _ _ _ _ h0
  · intro rem i acc h0 hi
    exact downloadLoop_step _ _ _ _ _ h0 hi
  · intro out hout
    simp only [FileSystemManager.download_file] at hout
    rcases hfind : st.filenodes.find? (fun node => aliasMatch node aliasq) with
      _ | node
    · rw [hfind] at hout
      simp at hout
    · rw [hfind] at hout
      simp only [] at hout
      refine ⟨node, rfl, ?_⟩
      have := downloadLoop_ok_length st.header.num_data_blocks st.data
        hWF.payload_len node.size node.first_block_index [] out hout
      simpa using this

/-- Witness for C5 at concrete inputs, on the one-file demo state. -/
theorem c5_download_contract_witness :
    (demoSt.filenodes.find? (fun node => aliasMatch node [97]) = none →
      demoSt.download_file [97] = .error .notFound) ∧
    (∀ node, demoSt.filenodes.find? (fun node => aliasMatch node [97]) = some node →
      demoSt.download_file [97] =
        downloadLoop demoSt.header.num_data_blocks demoSt.data node.size
          node.first_block_index []) ∧
    (∀ rem i acc, rem ≠ 0 → demoSt.header.num_data_blocks ≤ i →
      downloadLoop demoSt.header.num_data_blocks demoSt.data rem (some i) acc =
        .error (.invalidBlockIndex i)) ∧
    (∀ rem acc, rem ≠ 0 →
      downloadLoop demoSt.header.num_data_blocks demoSt.data rem none acc =
        .error (.incomplete rem)) ∧
    (∀ rem i acc, rem ≠ 0 → i < demoSt.header.num_data_blocks →
      downloadLoop demoSt.header.num_data_blocks demoSt.data rem (some i) acc =
        (if rem - min rem USABLE_BLOCK_SIZE = 0 then
          .ok (acc ++ (demoSt.data.getD i zeroBlock).payload.take
            (min rem USABLE_BLOCK_SIZE))
        else
          downloadLoop demoSt.header.num_data_blocks demoSt.data
            (rem - min rem USABLE_BLOCK_SIZE) (nextOf (demoSt.data.getD i zeroBlock))
            (acc ++ (demoSt.data.getD i zeroBlock).payload.take
              (min rem USABLE_BLOCK_SIZE)))) ∧
    (∀ out, demoSt.download_file [97] = .ok out →
      ∃ node, demoSt.filenodes.find? (fun node => aliasMatch node [97]) = some node ∧
        out.length = node.size) :=
  c5_download_contract demoSt [97] demoSt_WF

/-! ## Claim C9 -/

theorem list_files_loop_eq_filterMap :
    ∀ (l : List FileNode),
      list_files_loop l = l.filterMap
        (fun node => if node.is_used then some (node.alias_bytes, node.size)
          else none)
  | [] => rfl
  | node :: rest => by
    by_cases h : node.is_used
    · simp [list_files_loop, List.filterMap_cons, h,
        list_files_loop_eq_filterMap rest]
    · simp [list_files_loop, List.filterMap_cons, h,
        list_files_loop_eq_filterMap rest]

/-- C9: `list_files` is a pure function of the state (the Rust signature
takes `&self`; in this embedding it provably cannot mutate), and it returns
one entry per used filenode, in table-slot order, carrying that filenode's
alias bytes and size; two consecutive calls with no intervening mutation
return identical sequences. -/
theorem c9_list_stable (st : FileSystemManager) :
    st.list_files = st.filenodes.filterMap
      (fun node => if node.is_used then some (node.alias_bytes, node.size)
        else none) ∧
    st.list_files = st.list_files :=
  ⟨list_files_loop_eq_filterMap st.filenodes, rfl⟩

/-! ## Claim C10 -/

/-- C10: when the backing file does not exist, `get_filesystem_manager` does
not fail: it returns exactly what an explicit `init_filesystem` on the fresh
(zero-filled) file returns, namely the successfully initialized empty
manager `init_fs`, whose file listing is empty. -/
theorem c10_open_missing_file_inits :
    get_filesystem_manager none = FileSystemManager.init_filesystem freshData ∧
    FileSystemManager.init_filesystem freshData = .ok init_fs ∧
    init_fs.list_files = [] := by
  refine ⟨rfl, ?_, ?_⟩
  · simp only [FileSystemManager.init_filesystem]
    rw [if_neg (by decide)]
    rfl
  · rw [(c9_list_stable init_fs).1]
    show (List.replicate NUM_FILENODES FileNode.new).filterMap _ = []
    simp [FileNode.new]

/-! ## Claim C8 -/

/-- C8: opening an existing backing file re-initializes (wipes: fresh
header, all-unused filenode table, all-free bitmap) instead of failing
whenever the stored header's version, total_size, or block_size differ from
the compiled configuration; whereas if the header matches but the
deserialized filenode table does not have exactly `filenode_table_size`
entries, it returns an error and does not wipe. -/
theorem c8_open_policy (img : DiskImage) :
    (img.header.total_size ≠ FILESYSTEM_SIZE ∨ img.header.block_size ≠ BLOCK_SIZE ∨
        img.header.version ≠ 1 →
      get_filesystem_manager (some img) = .ok (init_manager img.data)) ∧
    (img.header.total_size = FILESYSTEM_SIZE → img.header.block_size = BLOCK_SIZE →
      img.header.version = 1 →
      img.filenodes.length ≠ img.header.filenode_table_size →
      get_filesystem_manager (some img) =
        .error "Filenode count mismatch after deserialize.") := by
  constructor
  · intro hmis
    simp only [get_filesystem_manager]
    rw [if_pos hmis]
    simp only [FileSystemManager.init_filesystem]
    rw [if_neg (by decide)]
  · intro h1 h2 h3 hlen
    simp only [get_filesystem_manager]
    rw [if_neg (by push_neg; exact ⟨h1, h2, h3⟩), if_pos hlen]

/-- Witness for C8: a header whose total_size disagrees triggers the wipe;
a matching header with a 1-entry table (instead of 100) is an error. -/
theorem c8_open_policy_witness :
    get_filesystem_manager (some demoImgMismatch) =
      .ok (init_manager demoImgMismatch.data) ∧
    get_filesystem_manager (some demoImgBadTable) =
      .error "Filenode count mismatch after deserialize." :=
  ⟨(c8_open_policy demoImgMismatch).1 (by decide),
   (c8_open_policy demoImgBadTable).2 (by decide) (by decide) (by decide) (by decide)⟩

/-! ## Properties of the delete walk -/

theorem delete_walk_stop (nblocks : Nat) (data : List Block) (fuel i : Nat)
    (acc : List Nat) (h : nblocks ≤ i) :
    delete_walk nblocks data fuel (some i) acc = some acc := by
  cases fuel with
  | zero =>
    show (if nblocks ≤ i then some acc else _) = some acc
    rw [if_pos h]
  | succ f =>
    show (if nblocks ≤ i then some acc else _) = some acc
    rw [if_pos h]

theorem delete_walk_none (nblocks : Nat) (data : List Block) (fuel : Nat)
    (acc : List Nat) : delete_walk nblocks data fuel none acc = some acc := by
  cases fuel <;> rfl

theorem walkTo_mem_lt (data : List Block) (nblocks : Nat) :
    ∀ (pre : List Nat) (cur : Option Nat) (bad : Nat),
      WalkTo data nblocks cur pre bad → ∀ b ∈ pre, b < nblocks
  | [], cur, bad => by
    intro _ b hb
    simp at hb
  | i :: pre, cur, bad => by
    rintro ⟨rfl, hlt, hw⟩ b hb
    rcases List.mem_cons.mp hb with rfl | hb
    · exact hlt
    · exact walkTo_mem_lt data nblocks pre _ bad hw b hb

theorem delete_walk_walkTo (nblocks : Nat) (data : List Block) :
    ∀ (pre : List Nat) (cur : Option Nat) (bad : Nat) (fuel : Nat)
      (acc : List Nat),
      WalkTo data nblocks cur pre bad → pre.length ≤ fuel →
      delete_walk nblocks data fuel cur acc = some (acc ++ pre)
  | [], cur, bad, fuel, acc => by
    rintro ⟨rfl, hge⟩ _
    rw [delete_walk_stop nblocks data fuel bad acc hge]
    simp
  | i :: pre, cur, bad, fuel, acc => by
    rintro ⟨rfl, hlt, hw⟩ hfuel
    match fuel, hfuel with
    | f + 1, hfuel =>
      show delete_walk nblocks data (f + 1) (some i) acc = _
      rw [show delete_walk nblocks data (f + 1) (some i) acc =
        if nblocks ≤ i then some acc
        else delete_walk nblocks data f (nextOf (data.getD i zeroBlock))
          (acc ++ [i]) from rfl]
      rw [if_neg (by omega)]
      rw [delete_walk_walkTo nblocks data pre _ bad f (acc ++ [i]) hw
        (by simpa using hfuel)]
      simp

theorem delete_walk_chain (nblocks : Nat) (data : List Block) :
    ∀ (ch : List Nat) (cur : Option Nat) (fuel : Nat) (acc : List Nat),
      IsChainFrom data cur ch → (∀ b ∈ ch, b < nblocks) → ch.length ≤ fuel →
      delete_walk nblocks data fuel cur acc = some (acc ++ ch)
  | [], cur, fuel, acc => by
    rintro rfl _ _
    simp [delete_walk]
  | i :: ch, cur, fuel, acc => by
    rintro ⟨rfl, hw⟩ hlt hfuel
    match fuel, hfuel with
    | f + 1, hfuel =>
      show delete_walk nblocks data (f + 1) (some i) acc = _
      rw [show delete_walk nblocks data (f + 1) (some i) acc =
        if nblocks ≤ i then some acc
        else delete_walk nblocks data f (nextOf (data.getD i zeroBlock))
          (acc ++ [i]) from rfl]
      rw [if_neg (by have := hlt i (List.mem_cons_self i ch); omega)]
      rw [delete_walk_chain nblocks data ch _ f (acc ++ [i]) hw
        (fun b hb => hlt b (List.mem_cons_of_mem i hb)) (by simpa using hfuel)]
      simp

theorem foldl_set_true_length :
    ∀ (blocks : List Nat) (bm : List Bool),
      (blocks.foldl (fun bm b => if b < bm.length then bm.set b true else bm)
        bm).length = bm.length
  | [], _ => rfl
  | x :: rest, bm => by
    show (rest.foldl _ (if x < bm.length then bm.set x true else bm)).length = _
    rw [foldl_set_true_length rest]
    by_cases hx : x < bm.length
    · rw [if_pos hx]
      simp
    · rw [if_neg hx]

theorem foldl_set_true_not_mem :
    ∀ (blocks : List Nat) (bm : List Bool) (b : Nat), b ∉ blocks →
      (blocks.foldl (fun bm b => if b < bm.length then bm.set b true else bm)
        bm).getD b true = bm.getD b true
  | [], _, _ => fun _ => rfl
  | x :: rest, bm, b => by
    intro hb
    show (rest.foldl _ (if x < bm.length then bm.set x true else bm)).getD b true = _
    rw [foldl_set_true_not_mem rest _ b (fun h => hb (List.mem_cons_of_mem x h))]
    by_cases hx : x < bm.length
    · rw [if_pos hx]
      exact getD_set_ne _ _ _ _ _ (fun h => hb (h ▸ List.mem_cons_self x rest))
    · rw [if_neg hx]

theorem foldl_set_true_mem :
    ∀ (blocks : List Nat) (bm : List Bool) (b : Nat), b ∈ blocks →
      b < bm.length →
      (blocks.foldl (fun bm b => if b < bm.length then bm.set b true else bm)
        bm).getD b true = true
  | [], _, _ => by simp
  | x :: rest, bm, b => by
    intro hb hlen
    show (rest.foldl _ (if x < bm.length then bm.set x true else bm)).getD b true = _
    by_cases hmem : b ∈ rest
    · refine foldl_set_true_mem rest _ b hmem ?_
      by_cases hx : x < bm.length
      · rw [if_pos hx]
        simpa using hlen
      · rw [if_neg hx]
        exact hlen
    · rcases List.mem_cons.mp hb with rfl | h2
      · rw [foldl_set_true_not_mem rest _ b hmem]
        rw [if_pos hlen]
        exact getD_set_self _ _ _ _ hlen
      · exact absurd h2 hmem

theorem foldl_set_true_count :
    ∀ (blocks : List Nat) (bm : List Bool), blocks.Nodup →
      (∀ b ∈ blocks, b < bm.length) →
      (∀ b ∈ blocks, bm.getD b true = false) →
      (blocks.foldl (fun bm b => if b < bm.length then bm.set b true else bm)
        bm).count true = bm.count true + blocks.length
  | [], _ => by simp
  | x :: rest, bm => by
    intro hnd hlt hfalse
    have hx : x < bm.length := hlt x (List.mem_cons_self x rest)
    have hxfalse : bm.getD x true = false := hfalse x (List.mem_cons_self x rest)
    have hxelem : bm[x] = false := by
      rw [List.getD_eq_getElem?_getD, List.getElem?_eq_getElem hx] at hxfalse
      simpa using hxfalse
    show (rest.foldl _ (if x < bm.length then bm.set x true else bm)).count true = _
    rw [if_pos hx]
    rw [foldl_set_true_count rest (bm.set x true) (List.nodup_cons.mp hnd).2
      (by intro b hb; rw [List.length_set]; exact hlt b (List.mem_cons_of_mem x hb))
      (by
        intro b hb
        rw [getD_set_ne _ _ _ _ _
          (fun h => (List.nodup_cons.mp hnd).1 (by rw [h]; exact hb))]
        exact hfalse b (List.mem_cons_of_mem x hb))]
    rw [List.count_set true true bm x hx]
    simp [hxelem]
    omega

/-! ## Claim C6 -/

theorem demoCorruptSt_WF : WF demoCorruptSt := by
  refine ⟨rfl, rfl, ?_, by decide⟩
  intro j hj
  have hj2 : j < 2 := hj
  match j, hj2 with
  | 0, _ => exact List.length_replicate _ _
  | 1, _ => exact List.length_replicate _ _

theorem delete_ok_shape (st : FileSystemManager) (aliasq : List Nat)
    (fi : Nat) (blocks : List Nat) (fuel : Nat)
    (hfind : st.filenodes.findIdx? (fun node => aliasMatch node aliasq) = some fi)
    (hwalk : delete_walk st.header.num_data_blocks st.data fuel
      (st.filenodes.getD fi FileNode.new).first_block_index [] = some blocks) :
    FileSystemManager.delete_file fuel st aliasq = some (.ok
      { header := st.header
        filenodes := st.filenodes.set fi FileNode.new
        free_block_bitmap := blocks.foldl
          (fun bm b => if b < bm.length then bm.set b true else bm)
          st.free_block_bitmap
        data := st.data }) := by
  simp only [FileSystemManager.delete_file]
  rw [hfind]
  simp only []
  rw [hwalk]
  rfl

/-- C6: deleting a file whose chain reaches an out-of-range pointer does not
return an error: the walk stops at the first out-of-range index, the blocks
visited before that point are marked free, the filenode is fully cleared
(alias buffer zeroed, `alias_len = 0`, `size = 0`, `first_block_index`
cleared, `is_used = false`, i.e. `FileNode.new`), the operation reports
success, and every block outside the visited prefix — in particular every
block beyond the corrupt pointer — keeps its bitmap state (leaked blocks
stay marked used). -/
theorem c6_delete_best_effort (st : FileSystemManager) (aliasq : List Nat)
    (fi : Nat) (pre : List Nat) (bad : Nat) (fuel : Nat)
    (hfind : st.filenodes.findIdx? (fun node => aliasMatch node aliasq) = some fi)
    (hwalk : WalkTo st.data st.header.num_data_blocks
      (st.filenodes.getD fi FileNode.new).first_block_index pre bad)
    (hbm : st.free_block_bitmap.length = st.header.num_data_blocks)
    (hfuel : pre.length ≤ fuel) :
    ∃ st2, FileSystemManager.delete_file fuel st aliasq = some (.ok st2) ∧
      (∀ b ∈ pre, st2.free_block_bitmap.getD b true = true) ∧
      (∀ b, b ∉ pre → st2.free_block_bitmap.getD b true =
        st.free_block_bitmap.getD b true) ∧
      st2.filenodes = st.filenodes.set fi FileNode.new ∧
      st2.data = st.data ∧ st2.header = st.header := by
  have hwalkres := delete_walk_walkTo st.header.num_data_blocks st.data pre
    (st.filenodes.getD fi FileNode.new).first_block_index bad fuel [] hwalk hfuel
  simp only [List.nil_append] at hwalkres
  refine ⟨_, delete_ok_shape st aliasq fi pre fuel hfind hwalkres, ?_, ?_, rfl, rfl, rfl⟩
  · intro b hb
    exact foldl_set_true_mem pre st.free_block_bitmap b hb
      (by rw [hbm]; exact walkTo_mem_lt st.data _ pre _ bad hwalk b hb)
  · intro b hb
    exact foldl_set_true_not_mem pre st.free_block_bitmap b hb

/-- Witness for C6: on the corrupt demo state (size 5000, block 0 pointing
at out-of-range block 7), delete succeeds, frees block 0 and leaves block 1
marked used. -/
theorem c6_delete_best_effort_witness :
    ∃ st2, FileSystemManager.delete_file 2 demoCorruptSt [97] = some (.ok st2) ∧
      (∀ b ∈ [0], st2.free_block_bitmap.getD b true = true) ∧
      (∀ b, b ∉ [0] → st2.free_block_bitmap.getD b true =
        demoCorruptSt.free_block_bitmap.getD b true) ∧
      st2.filenodes = demoCorruptSt.filenodes.set 0 FileNode.new ∧
      st2.data = demoCorruptSt.data ∧ st2.header = demoCorruptSt.header :=
  c6_delete_best_effort demoCorruptSt [97] 0 [0] 7 2 (by decide)
    (by refine ⟨rfl, by decide, rfl, by decide⟩) (by decide) (by decide)

/-! ## Claim C7 -/

/-- C7: deleting a file with an intact (in-range, sentinel-terminated) chain
of length `L` marks exactly the `L` chain blocks free — the free-block count
rises by exactly `L` and no other bitmap entry changes — and clears the
filenode slot to `FileNode.new`, so the slot is unused and the
first-available scan of a subsequent upload finds a free slot. -/
theorem c7_delete_frees_chain (st : FileSystemManager) (aliasq : List Nat)
    (fi : Nat) (ch : List Nat) (fuel : Nat)
    (hfind : st.filenodes.findIdx? (fun node => aliasMatch node aliasq) = some fi)
    (hch : IsChainFrom st.data
      (st.filenodes.getD fi FileNode.new).first_block_index ch)
    (hin : ∀ b ∈ ch, b < st.header.num_data_blocks)
    (hnd : ch.Nodup)
    (hused : ∀ b ∈ ch, st.free_block_bitmap.getD b true = false)
    (hbm : st.free_block_bitmap.length = st.header.num_data_blocks)
    (hfuel : ch.length ≤ fuel) :
    ∃ st2, FileSystemManager.delete_file fuel st aliasq = some (.ok st2) ∧
      st2.free_blocks_count = st.free_blocks_count + ch.length ∧
      (∀ b ∈ ch, st2.free_block_bitmap.getD b true = true) ∧
      (∀ b, b ∉ ch → st2.free_block_bitmap.getD b true =
        st.free_block_bitmap.getD b true) ∧
      st2.filenodes = st.filenodes.set fi FileNode.new ∧
      (st2.filenodes.getD fi FileNode.new).is_used = false ∧
      st2.find_free_filenode_index.isSome = true := by
  have hfi2 : st.filenodes.findIdx? (fun node => aliasMatch node aliasq) = some fi :=
    hfind
  obtain ⟨hfilt, -, -⟩ := findIdx?_some_spec _ FileNode.new st.filenodes fi hfi2
  have hwalkres := delete_walk_chain st.header.num_data_blocks st.data ch
    (st.filenodes.getD fi FileNode.new).first_block_index fuel [] hch hin hfuel
  simp only [List.nil_append] at hwalkres
  have hltlen : ∀ b ∈ ch, b < st.free_block_bitmap.length := by
    intro b hb
    rw [hbm]
    exact hin b hb
  refine ⟨_, delete_ok_shape st aliasq fi ch fuel hfind hwalkres, ?_, ?_, ?_, rfl, ?_, ?_⟩
  · show (ch.foldl _ st.free_block_bitmap).count true = _
    rw [foldl_set_true_count ch st.free_block_bitmap hnd hltlen hused]
    rfl
  · intro b hb
    exact foldl_set_true_mem ch st.free_block_bitmap b hb (hltlen b hb)
  · intro b hb
    exact foldl_set_true_not_mem ch st.free_block_bitmap b hb
  · rw [getD_set_self _ _ _ _ hfilt]
    rfl
  · rcases hidx : (st.filenodes.set fi FileNode.new).findIdx?
      (fun node => !node.is_used) with _ | j
    · exfalso
      have hmem : FileNode.new ∈ st.filenodes.set fi FileNode.new := by
        have h1 : (st.filenodes.set fi FileNode.new).getD fi FileNode.new =
            FileNode.new := getD_set_self _ _ _ _ hfilt
        have h2 : (st.filenodes.set fi FileNode.new).getD fi FileNode.new ∈
            st.filenodes.set fi FileNode.new :=
          getD_mem_of_lt _ _ _ (by simpa using hfilt)
        simpa only [h1] using h2
      have := findIdx?_none_spec _ _ hidx FileNode.new hmem
      simp [FileNode.new] at this
    · show ((st.filenodes.set fi FileNode.new).findIdx? _).isSome = true
      rw [hidx]
      rfl

/-- Witness for C7: deleting alias "a" (chain `[0]`, length 1) on the
one-file demo state frees exactly block 0 and clears slot 0. -/
theorem c7_delete_frees_chain_witness :
    ∃ st2, FileSystemManager.delete_file 1 demoUsedSt [97] = some (.ok st2) ∧
      st2.free_blocks_count = demoUsedSt.free_blocks_count + [0].length ∧
      (∀ b ∈ [0], st2.free_block_bitmap.getD b true = true) ∧
      (∀ b, b ∉ [0] → st2.free_block_bitmap.getD b true =
        demoUsedSt.free_block_bitmap.getD b true) ∧
      st2.filenodes = demoUsedSt.filenodes.set 0 FileNode.new ∧
      (st2.filenodes.getD 0 FileNode.new).is_used = false ∧
      st2.find_free_filenode_index.isSome = true :=
  c7_delete_frees_chain demoUsedSt [97] 0 [0] 1 (by decide)
    ⟨rfl, by decide⟩ (by decide) (by decide) (by decide) (by decide) (by decide)

/-! ## Chain lemmas for the data-model invariant -/

theorem getD_default_irrel {α : Type} (l : List α) (i : Nat) (d1 d2 : α)
    (h : i < l.length) : l.getD i d1 = l.getD i d2 := by
  rw [List.getD_eq_getElem?_getD, List.getD_eq_getElem?_getD,
    List.getElem?_eq_getElem h]
  rfl

theorem nextOf_eq_none_iff (b : Block) : nextOf b = none ↔ b.next = SENTINEL := by
  unfold nextOf
  split <;> simp_all

theorem isChainFrom_unique (data : List Block) :
    ∀ (ch1 : List Nat) (cur : Option Nat) (ch2 : List Nat),
      IsChainFrom data cur ch1 → IsChainFrom data cur ch2 → ch1 = ch2
  | [], cur, [] => fun _ _ => rfl
  | [], cur, j :: ch2 => by
    rintro rfl ⟨h, -⟩
    cases h
  | i :: ch1, cur, [] => by
    rintro ⟨rfl, -⟩ h
    cases h
  | i :: ch1, cur, j :: ch2 => by
    rintro ⟨rfl, h1⟩ ⟨hj, h2⟩
    obtain rfl : i = j := by injection hj
    rw [isChainFrom_unique data ch1 _ ch2 h1 h2]

theorem isChainFrom_congr (data data2 : List Block) :
    ∀ (ch : List Nat) (cur : Option Nat),
      IsChainFrom data cur ch →
      (∀ b ∈ ch, data2.getD b zeroBlock = data.getD b zeroBlock) →
      IsChainFrom data2 cur ch
  | [], cur => fun h _ => h
  | i :: ch, cur => by
    rintro ⟨rfl, hw⟩ hag
    refine ⟨rfl, ?_⟩
    rw [hag i (List.mem_cons_self i ch)]
    exact isChainFrom_congr data data2 ch _ hw
      (fun b hb => hag b (List.mem_cons_of_mem i hb))

theorem isChainFrom_last (data : List Block) :
    ∀ (ch : List Nat) (cur : Option Nat), IsChainFrom data cur ch → ch ≠ [] →
      (data.getD (ch.getLastD 0) zeroBlock).next = SENTINEL
  | [], cur => by
    intro _ h
    simp at h
  | [i], cur => by
    rintro ⟨rfl, hnil⟩ -
    have : nextOf (data.getD i zeroBlock) = none := hnil
    simpa using (nextOf_eq_none_iff _).mp this
  | i :: j :: ch, cur => by
    rintro ⟨rfl, hw⟩ -
    have h := isChainFrom_last data (j :: ch) _ hw (by simp)
    simpa using h

theorem uploadLoop_payload_len :
    ∀ (is : List Nat) (data : List Block) (bm : List Bool) (bytes : List Nat)
      (rem j : Nat), bytes.length = rem → j ∈ is → j < data.length →
      ((uploadLoop data bm is bytes rem).1.getD j zeroBlock).payload.length =
        USABLE_BLOCK_SIZE
  | [], _, _, _, _, _ => by simp
  | i :: is, data, bm, bytes, rem, j => by
    intro hby hj hlen
    rw [uploadLoop_cons]
    by_cases hmem : j ∈ is
    · exact uploadLoop_payload_len is _ _ _ _ j
        (by rw [List.length_drop]; omega) hmem (by simpa using hlen)
    · rcases List.mem_cons.mp hj with rfl | h2
      · rw [uploadLoop_fst_getD is _ _ _ _ j hmem]
        rw [getD_set_self _ _ _ _ hlen]
        simp only [writtenBlock, List.length_append, List.length_take,
          List.length_replicate]
        omega
      · exact absurd h2 hmem

theorem delete_walk_some_of_chain (nblocks : Nat) (data : List Block) :
    ∀ (ch : List Nat) (cur : Option Nat) (fuel : Nat) (acc bs : List Nat),
      IsChainFrom data cur ch → (∀ b ∈ ch, b < nblocks) →
      delete_walk nblocks data fuel cur acc = some bs → bs = acc ++ ch
  | [], cur, fuel, acc, bs => by
    rintro rfl _ h
    rw [delete_walk_none] at h
    cases h
    simp
  | i :: ch, cur, fuel, acc, bs => by
    rintro ⟨rfl, hw⟩ hlt h
    have hi : i < nblocks := hlt i (List.mem_cons_self i ch)
    match fuel with
    | 0 =>
      rw [show delete_walk nblocks data 0 (some i) acc =
        if nblocks ≤ i then some acc else none from rfl] at h
      rw [if_neg (by omega)] at h
      cases h
    | f + 1 =>
      rw [show delete_walk nblocks data (f + 1) (some i) acc =
        if nblocks ≤ i then some acc
        else delete_walk nblocks data f (nextOf (data.getD i zeroBlock))
          (acc ++ [i]) from rfl] at h
      rw [if_neg (by omega)] at h
      have := delete_walk_some_of_chain nblocks data ch _ f (acc ++ [i]) bs hw
        (fun b hb => hlt b (List.mem_cons_of_mem i hb)) h
      rw [this]
      simp

/-! ## The invariant holds initially and is implied by `FsInv` -/

theorem specInv_of_inv (st : FileSystemManager) (hInv : FsInv st) : SpecInv st := by
  have hU : USABLE_BLOCK_SIZE = 4088 := rfl
  refine ⟨?_, hInv.disjoint, hInv.bitmap_iff⟩
  intro i hi hused
  obtain ⟨ch, hch⟩ := hInv.chains i hi hused
  refine ⟨ch, hch.chain, hch.len, ?_, ?_⟩
  · intro hnil
    have hlen := hch.len
    rw [hnil] at hlen
    simp only [List.length_nil] at hlen
    have := hch.size_pos
    rw [hU] at hlen
    omega
  · refine isChainFrom_last st.data ch _ hch.chain ?_
    intro hnil
    have hlen := hch.len
    rw [hnil] at hlen
    simp only [List.length_nil] at hlen
    have := hch.size_pos
    rw [hU] at hlen
    omega

theorem init_fs_inv : FsInv init_fs := by
  refine ⟨rfl, List.length_replicate _ _, ⟨List.length_replicate _ _,
    List.length_replicate _ _, ?_, by decide⟩, ?_, ?_, ?_⟩
  · intro j hj
    have hj2 : j < NUM_DATA_BLOCKS := hj
    show ((List.replicate NUM_DATA_BLOCKS zeroBlock).getD j zeroBlock).payload.length
      = USABLE_BLOCK_SIZE
    rw [getD_replicate_of_lt _ _ _ _ hj2]
    exact List.length_replicate _ _
  · intro i hi hused
    exfalso
    have hi2 : i < NUM_FILENODES := by
      simpa using hi
    have : (List.replicate NUM_FILENODES FileNode.new).getD i FileNode.new =
        FileNode.new := getD_replicate_of_lt _ _ _ _ hi2
    rw [show (init_fs.filenodes.getD i FileNode.new) =
      (List.replicate NUM_FILENODES FileNode.new).getD i FileNode.new from rfl,
      this] at hused
    simp [FileNode.new] at hused
  · intro i j ci cj hi hj hne husedi husedj hci hcj b hb
    exfalso
    have hi2 : i < NUM_FILENODES := by
      simpa using hi
    have : (List.replicate NUM_FILENODES FileNode.new).getD i FileNode.new =
        FileNode.new := getD_replicate_of_lt _ _ _ _ hi2
    rw [show (init_fs.filenodes.getD i FileNode.new) =
      (List.replicate NUM_FILENODES FileNode.new).getD i FileNode.new from rfl,
      this] at husedi
    simp [FileNode.new] at husedi
  · intro b hb
    constructor
    · intro hfalse
      exfalso
      have hb2 : b < NUM_DATA_BLOCKS := hb
      rw [show init_fs.free_block_bitmap.getD b true =
        (List.replicate NUM_DATA_BLOCKS true).getD b true from rfl,
        getD_replicate_of_lt _ _ _ _ hb2] at hfalse
      cases hfalse
    · rintro ⟨i, ci, hi, hused, -, -⟩
      exfalso
      have hi2 : i < NUM_FILENODES := by
        simpa using hi
      have : (List.replicate NUM_FILENODES FileNode.new).getD i FileNode.new =
          FileNode.new := getD_replicate_of_lt _ _ _ _ hi2
      rw [show (init_fs.filenodes.getD i FileNode.new) =
        (List.replicate NUM_FILENODES FileNode.new).getD i FileNode.new from rfl,
        this] at hused
      simp [FileNode.new] at hused

/-! ## Upload preserves the inductive invariant -/

theorem upload_preserves_inv (st st2 : FileSystemManager)
    (content aliasq : List Nat) (hInv : FsInv st)
    (h : st.upload_file content aliasq = .ok st2) : FsInv st2 := by
  obtain ⟨ha1, ha2, hau, hc, hcap, fi, hfi, hst2⟩ :=
    upload_ok_elim st content aliasq st2 h
  subst hst2
  have hU : USABLE_BLOCK_SIZE = 4088 := rfl
  have hWF := hInv.wf
  have hfi2 : st.filenodes.findIdx? (fun node => !node.is_used) = some fi := hfi
  obtain ⟨hfilt, hfip, -⟩ :=
    findIdx?_some_spec (fun node => !node.is_used) FileNode.new st.filenodes fi hfi2
  have hfi_unused : (st.filenodes.getD fi FileNode.new).is_used = false := by
    simpa using hfip
  have hfree : st.free_blocks_count = (freeIndices st.free_block_bitmap 0).length :=
    (length_freeIndices _ 0).symm
  have hneedle : (content.length + USABLE_BLOCK_SIZE - 1) / USABLE_BLOCK_SIZE ≤
      st.free_blocks_count := by
    rw [hU]
    rw [hU] at hcap
    omega
  have hlen_ind : ((freeIndices st.free_block_bitmap 0).take
      ((content.length + USABLE_BLOCK_SIZE - 1) / USABLE_BLOCK_SIZE)).length =
      (content.length + USABLE_BLOCK_SIZE - 1) / USABLE_BLOCK_SIZE := by
    rw [List.length_take]
    omega
  have hhdr : (uploadResult st content aliasq fi).header = st.header := rfl
  have hnodes : (uploadResult st content aliasq fi).filenodes =
      st.filenodes.set fi (uploadNode st content aliasq fi) := rfl
  have hbmeq : (uploadResult st content aliasq fi).free_block_bitmap =
      (uploadLoop st.data st.free_block_bitmap
        ((freeIndices st.free_block_bitmap 0).take
          ((content.length + USABLE_BLOCK_SIZE - 1) / USABLE_BLOCK_SIZE))
        content content.length).2.1 := rfl
  have hdataeq : (uploadResult st content aliasq fi).data =
      (uploadLoop st.data st.free_block_bitmap
        ((freeIndices st.free_block_bitmap 0).take
          ((content.length + USABLE_BLOCK_SIZE - 1) / USABLE_BLOCK_SIZE))
        content content.length).1 := rfl
  set indices := (freeIndices st.free_block_bitmap 0).take
    ((content.length + USABLE_BLOCK_SIZE - 1) / USABLE_BLOCK_SIZE) with hind_def
  set data2 := (uploadLoop st.data st.free_block_bitmap indices content
    content.length).1 with hdata2_def
  set bm2 := (uploadLoop st.data st.free_block_bitmap indices content
    content.length).2.1 with hbm2_def
  have hind_lt : ∀ x ∈ indices, x < st.header.num_data_blocks := by
    intro x hx
    have h2 := take_freeIndices_mem st.free_block_bitmap _ x hx
    rw [hWF.bm_len] at h2
    exact h2.1
  have hind_free : ∀ x ∈ indices, st.free_block_bitmap.getD x true = true := by
    intro x hx
    have h2 := take_freeIndices_mem st.free_block_bitmap _ x hx
    rw [getD_default_irrel st.free_block_bitmap x true false h2.1]
    exact h2.2
  have hnd : indices.Nodup := take_freeIndices_nodup _ _
  have hsorted : List.Sorted (· < ·) indices := take_freeIndices_sorted _ _
  obtain ⟨i0, rest, hind⟩ : ∃ i0 rest, indices = i0 :: rest := by
    apply List.exists_cons_of_ne_nil
    intro hnil
    rw [hnil] at hlen_ind
    simp only [List.length_nil] at hlen_ind
    rw [hU] at hlen_ind
    omega
  -- canonical chains of used nodes in the old state
  have hcanon : ∀ j, j < st.filenodes.length →
      (st.filenodes.getD j FileNode.new).is_used = true →
      ∀ ci, IsChainFrom st.data
        (st.filenodes.getD j FileNode.new).first_block_index ci →
      NodeChain st (st.filenodes.getD j FileNode.new) ci := by
    intro j hj hused ci hci
    obtain ⟨ch, hch⟩ := hInv.chains j hj hused
    rw [isChainFrom_unique st.data ci _ ch hci hch.chain]
    exact hch
  have hused_notin : ∀ j ci b, j < st.filenodes.length →
      (st.filenodes.getD j FileNode.new).is_used = true →
      IsChainFrom st.data
        (st.filenodes.getD j FileNode.new).first_block_index ci →
      b ∈ ci → st.free_block_bitmap.getD b true = false ∧ b ∉ indices := by
    intro j ci b hj hused hci hb
    have hbused : st.free_block_bitmap.getD b true = false :=
      (hInv.bitmap_iff b ((hcanon j hj hused ci hci).in_range b hb)).mpr
        ⟨j, ci, hj, hused, hci, hb⟩
    refine ⟨hbused, fun hbin => ?_⟩
    rw [hind_free b hbin] at hbused
    cases hbused
  have hpreserve : ∀ j ci, j < st.filenodes.length →
      (st.filenodes.getD j FileNode.new).is_used = true →
      IsChainFrom st.data
        (st.filenodes.getD j FileNode.new).first_block_index ci →
      IsChainFrom data2
        (st.filenodes.getD j FileNode.new).first_block_index ci := by
    intro j ci hj hused hci
    refine isChainFrom_congr st.data data2 ci _ hci ?_
    intro b hb
    exact uploadLoop_fst_getD _ _ _ _ _ b (hused_notin j ci b hj hused hci hb).2
  have hchain_new : IsChainFrom data2 (some i0) indices := by
    rw [hdata2_def, hind]
    exact uploadLoop_chain rest i0 st.data st.free_block_bitmap content
      content.length (hind ▸ hnd)
      (by
        intro x hx
        rw [hWF.data_len]
        exact hind_lt x (hind ▸ hx))
      (by
        rw [hWF.data_len]
        have := hWF.sentinel_big
        omega)
  have hfirst_new : (uploadNode st content aliasq fi).first_block_index = some i0 := by
    show some (indices.headD 0) = some i0
    rw [hind]
    rfl
  have hbm2_mem : ∀ b ∈ indices, bm2.getD b true = false := by
    intro b hb
    exact uploadLoop_bm_mem _ _ _ _ _ b hb
      (take_freeIndices_mem st.free_block_bitmap _ b hb).1
  have hbm2_not : ∀ b, b ∉ indices → bm2.getD b true = st.free_block_bitmap.getD b true :=
    fun b hb => uploadLoop_snd_getD _ _ _ _ _ b hb
  refine ⟨?_, ?_, ⟨?_, ?_, ?_, ?_⟩, ?_, ?_, ?_⟩
  · rw [hhdr]
    exact hInv.header_eq
  · rw [hnodes, List.length_set]
    exact hInv.nodes_len
  · rw [hbmeq, hhdr, uploadLoop_snd_length]
    exact hWF.bm_len
  · rw [hdataeq, hhdr, uploadLoop_fst_length]
    exact hWF.data_len
  · intro j hj
    rw [hhdr] at hj
    rw [hdataeq]
    by_cases hmem : j ∈ indices
    · exact uploadLoop_payload_len _ _ _ _ _ j rfl hmem (by rw [hWF.data_len]; omega)
    · rw [uploadLoop_fst_getD _ _ _ _ _ j hmem]
      exact hWF.payload_len j hj
  · rw [hhdr]
    exact hWF.sentinel_big
  · -- chains
    intro i hi hused2
    rw [hnodes, List.length_set] at hi
    rw [hnodes] at hused2 ⊢
    by_cases hieq : i = fi
    · subst hieq
      rw [getD_set_self _ _ _ _ hfilt] at hused2 ⊢
      refine ⟨indices, ?_, ?_, ?_, ?_, ?_⟩
      · show IsChainFrom (uploadResult st content aliasq i).data
          (uploadNode st content aliasq i).first_block_index indices
        rw [hdataeq, hfirst_new]
        exact hchain_new
      · intro b hb
        rw [hhdr]
        exact hind_lt b hb
      · exact hsorted
      · show indices.length = ((uploadNode st content aliasq i).size +
          USABLE_BLOCK_SIZE - 1) / USABLE_BLOCK_SIZE
        exact hlen_ind
      · show 0 < content.length
        omega
    · rw [getD_set_ne _ _ _ _ _ (fun hh => hieq hh.symm)] at hused2 ⊢
      obtain ⟨ch, hch⟩ := hInv.chains i hi hused2
      refine ⟨ch, ?_, ?_, hch.sorted, hch.len, hch.size_pos⟩
      · show IsChainFrom (uploadResult st content aliasq fi).data _ ch
        rw [hdataeq]
        exact hpreserve i ch hi hused2 hch.chain
      · intro b hb
        rw [hhdr]
        exact hch.in_range b hb
  · -- disjointness
    intro i j ci cj hi hj hne husedi husedj hci hcj b hbi
    rw [hnodes, List.length_set] at hi hj
    rw [hnodes] at husedi husedj
    rw [hnodes, hdataeq] at hci hcj
    by_cases hieq : i = fi
    · subst hieq
      have hjne : j ≠ i := fun hh => hne hh.symm
      rw [getD_set_self _ _ _ _ hfilt, hfirst_new] at hci
      have hcieq : ci = indices :=
        isChainFrom_unique data2 ci _ indices hci hchain_new
      rw [getD_set_ne _ _ _ _ _ hne] at husedj hcj
      obtain ⟨chj, hchj⟩ := hInv.chains j hj husedj
      have hcjpres := hpreserve j chj hj husedj hchj.chain
      have hcjeq : cj = chj := isChainFrom_unique data2 cj _ chj hcj hcjpres
      intro hbcj
      have := (hused_notin j chj b hj husedj hchj.chain (hcjeq ▸ hbcj)).2
      exact this (hcieq ▸ hbi)
    · rw [getD_set_ne _ _ _ _ _ (fun hh => hieq hh.symm)] at husedi hci
      obtain ⟨chi, hchi⟩ := hInv.chains i hi husedi
      have hcipres := hpreserve i chi hi husedi hchi.chain
      have hcieq : ci = chi := isChainFrom_unique data2 ci _ chi hci hcipres
      by_cases hjeq : j = fi
      · subst hjeq
        rw [getD_set_self _ _ _ _ hfilt, hfirst_new] at hcj
        have hcjeq : cj = indices :=
          isChainFrom_unique data2 cj _ indices hcj hchain_new
        intro hbcj
        have := (hused_notin i chi b hi husedi hchi.chain (hcieq ▸ hbi)).2
        exact this (hcjeq ▸ hbcj)
      · rw [getD_set_ne _ _ _ _ _ (fun hh => hjeq hh.symm)] at husedj hcj
        obtain ⟨chj, hchj⟩ := hInv.chains j hj husedj
        have hcjpres := hpreserve j chj hj husedj hchj.chain
        have hcjeq : cj = chj := isChainFrom_unique data2 cj _ chj hcj hcjpres
        subst hcieq
        subst hcjeq
        exact hInv.disjoint i j ci cj hi hj hne husedi husedj hchi.chain hchj.chain
          b hbi
  · -- bitmap iff
    intro b hb
    rw [hhdr] at hb
    rw [hbmeq]
    constructor
    · intro hfalse
      by_cases hbin : b ∈ indices
      · refine ⟨fi, indices, ?_, ?_, ?_, hbin⟩
        · rw [hnodes, List.length_set]
          exact hfilt
        · rw [hnodes, getD_set_self _ _ _ _ hfilt]
          rfl
        · rw [hnodes, hdataeq, getD_set_self _ _ _ _ hfilt, hfirst_new]
          exact hchain_new
      · rw [hbm2_not b hbin] at hfalse
        obtain ⟨i, ci, hi, hused, hci, hbci⟩ := (hInv.bitmap_iff b hb).mp hfalse
        have hine : i ≠ fi := by
          rintro rfl
          rw [hfi_unused] at hused
          cases hused
        refine ⟨i, ci, ?_, ?_, ?_, hbci⟩
        · rw [hnodes, List.length_set]
          exact hi
        · rw [hnodes, getD_set_ne _ _ _ _ _ (fun hh => hine hh.symm)]
          exact hused
        · rw [hnodes, hdataeq, getD_set_ne _ _ _ _ _ (fun hh => hine hh.symm)]
          exact hpreserve i ci hi hused hci
    · rintro ⟨i, ci, hi, hused2, hci, hbci⟩
      rw [hnodes, List.length_set] at hi
      rw [hnodes] at hused2 hci
      rw [hdataeq] at hci
      by_cases hieq : i = fi
      · subst hieq
        rw [getD_set_self _ _ _ _ hfilt, hfirst_new] at hci
        have hcieq : ci = indices :=
          isChainFrom_unique data2 ci _ indices hci hchain_new
        exact hbm2_mem b (hcieq ▸ hbci)
      · rw [getD_set_ne _ _ _ _ _ (fun hh => hieq hh.symm)] at hused2 hci
        obtain ⟨chi, hchi⟩ := hInv.chains i hi hused2
        have hcipres := hpreserve i chi hi hused2 hchi.chain
        have hcieq : ci = chi := isChainFrom_unique data2 ci _ chi hci hcipres
        obtain ⟨hbfalse, hbnotin⟩ :=
          hused_notin i chi b hi hused2 hchi.chain (hcieq ▸ hbci)
        rw [hbm2_not b hbnotin]
        exact hbfalse

/-! ## Delete preserves the inductive invariant -/

theorem delete_preserves_inv (st st2 : FileSystemManager) (aliasq : List Nat)
    (fuel : Nat) (hInv : FsInv st)
    (h : FileSystemManager.delete_file fuel st aliasq = some (.ok st2)) :
    FsInv st2 := by
  have hWF := hInv.wf
  rcases hfind : st.filenodes.findIdx? (fun node => aliasMatch node aliasq) with
    _ | fi
  · simp only [FileSystemManager.delete_file] at h
    rw [hfind] at h
    simp at h
  · rcases hwalk : delete_walk st.header.num_data_blocks st.data fuel
        (st.filenodes.getD fi FileNode.new).first_block_index [] with _ | blocks
    · simp only [FileSystemManager.delete_file] at h
      rw [hfind] at h
      simp only [] at h
      rw [hwalk] at h
      cases h
    · have hR := delete_ok_shape st aliasq fi blocks fuel hfind hwalk
      have hok : Except.ok (ε := DeleteError) st2 = Except.ok
          { header := st.header
            filenodes := st.filenodes.set fi FileNode.new
            free_block_bitmap := blocks.foldl
              (fun bm b => if b < bm.length then bm.set b true else bm)
              st.free_block_bitmap
            data := st.data } := by
        have := h.symm.trans hR
        injection this
      have hst2 : st2 =
          { header := st.header
            filenodes := st.filenodes.set fi FileNode.new
            free_block_bitmap := blocks.foldl
              (fun bm b => if b < bm.length then bm.set b true else bm)
              st.free_block_bitmap
            data := st.data } := by
        injection hok
      subst hst2
      obtain ⟨hfilt, hfip, -⟩ := findIdx?_some_spec
        (fun node => aliasMatch node aliasq) FileNode.new st.filenodes fi hfind
      have hfi_used : (st.filenodes.getD fi FileNode.new).is_used = true := by
        simp only [aliasMatch, Bool.and_eq_true] at hfip
        exact hfip.1
      obtain ⟨ch, hch⟩ := hInv.chains fi hfilt hfi_used
      have hblocks : ch = blocks := by
        have := delete_walk_some_of_chain st.header.num_data_blocks st.data ch
          (st.filenodes.getD fi FileNode.new).first_block_index fuel [] blocks
          hch.chain hch.in_range hwalk
        simpa using this.symm
      subst hblocks
      have hltlen : ∀ b ∈ ch, b < st.free_block_bitmap.length := by
        intro b hb
        rw [hWF.bm_len]
        exact hch.in_range b hb
      refine ⟨hInv.header_eq, ?_, ⟨?_, hWF.data_len, hWF.payload_len,
        hWF.sentinel_big⟩, ?_, ?_, ?_⟩
      · rw [List.length_set]
        exact hInv.nodes_len
      · rw [foldl_set_true_length]
        exact hWF.bm_len
      · -- chains
        intro i hi hused2
        rw [List.length_set] at hi
        by_cases hieq : i = fi
        · subst hieq
          rw [getD_set_self _ _ _ _ hfilt] at hused2
          simp [FileNode.new] at hused2
        · rw [getD_set_ne _ _ _ _ _ (fun hh => hieq hh.symm)] at hused2 ⊢
          obtain ⟨ch2, hch2⟩ := hInv.chains i hi hused2
          exact ⟨ch2, hch2.chain, hch2.in_range, hch2.sorted, hch2.len,
            hch2.size_pos⟩
      · -- disjointness
        intro i j ci cj hi hj hne husedi husedj hci hcj
        rw [List.length_set] at hi hj
        by_cases hieq : i = fi
        · subst hieq
          rw [getD_set_self _ _ _ _ hfilt] at husedi
          simp [FileNode.new] at husedi
        · by_cases hjeq : j = fi
          · subst hjeq
            rw [getD_set_self _ _ _ _ hfilt] at husedj
            simp [FileNode.new] at husedj
          · rw [getD_set_ne _ _ _ _ _ (fun hh => hieq hh.symm)] at husedi hci
            rw [getD_set_ne _ _ _ _ _ (fun hh => hjeq hh.symm)] at husedj hcj
            exact hInv.disjoint i j ci cj hi hj hne husedi husedj hci hcj
      · -- bitmap iff
        intro b hb
        constructor
        · intro hfalse
          by_cases hbch : b ∈ ch
          · rw [foldl_set_true_mem ch st.free_block_bitmap b hbch
              (hltlen b hbch)] at hfalse
            cases hfalse
          · rw [foldl_set_true_not_mem ch st.free_block_bitmap b hbch] at hfalse
            obtain ⟨i, ci, hi, hused2, hci, hbci⟩ :=
              (hInv.bitmap_iff b hb).mp hfalse
            have hine : i ≠ fi := by
              rintro rfl
              have := isChainFrom_unique st.data ci _ ch hci hch.chain
              subst this
              exact hbch hbci
            refine ⟨i, ci, ?_, ?_, ?_, hbci⟩
            · rw [List.length_set]
              exact hi
            · rw [getD_set_ne _ _ _ _ _ (fun hh => hine hh.symm)]
              exact hused2
            · rw [getD_set_ne _ _ _ _ _ (fun hh => hine hh.symm)]
              exact hci
        · rintro ⟨i, ci, hi, hused2, hci, hbci⟩
          rw [List.length_set] at hi
          by_cases hieq : i = fi
          · subst hieq
            rw [getD_set_self _ _ _ _ hfilt] at hused2
            simp [FileNode.new] at hused2
          · rw [getD_set_ne _ _ _ _ _ (fun hh => hieq hh.symm)] at hused2 hci
            obtain ⟨hbfalse, hbnotch⟩ : st.free_block_bitmap.getD b true = false ∧
                b ∉ ch := by
              have hbfalse : st.free_block_bitmap.getD b true = false :=
                (hInv.bitmap_iff b hb).mpr ⟨i, ci, hi, hused2, hci, hbci⟩
              refine ⟨hbfalse, ?_⟩
              intro hbch
              exact hInv.disjoint fi i ch ci hfilt hi
                (fun hh => hieq hh.symm) hfi_used hused2 hch.chain hci b hbch hbci
            rw [foldl_set_true_not_mem ch st.free_block_bitmap b hbnotch]
            exact hbfalse

/-! ## Claim C2 -/

theorem reach_inv (st : FileSystemManager) (h : Reach st) : FsInv st := by
  induction h with
  | init => exact init_fs_inv
  | upload hre hok ih => exact upload_preserves_inv _ _ _ _ ih hok
  | delete hre hok ih => exact delete_preserves_inv _ _ _ _ ih hok

/-- C2: in every state reachable from init by completed upload and delete
operations, each used filenode owns a pointer chain of exactly
`ceil(size / usable_block_size)` blocks whose last block carries the
sentinel, no data block is reachable from two different filenodes' chains,
and a block is marked used in the bitmap iff it is reachable from some
chain. -/
theorem c2_invariants (st : FileSystemManager) (h : Reach st) : SpecInv st :=
  specInv_of_inv st (reach_inv st h)

/-- Witness for C2: the invariant at the concrete initial state. -/
theorem c2_invariants_witness : SpecInv init_fs :=
  c2_invariants init_fs Reach.init
